import Mathlib

/-
Verification of the tinydb document store: a shallow embedding of the
query builder (tinydb/queries.py), the table layer (tinydb/table.py) and
the LRU cache (tinydb/utils.py), together with proofs of the behavioural
claims about them.

Python values are modelled by the inductive type PyVal (JSON-style data:
None, booleans, unbounded integers, strings, lists, dicts).  Python dicts
are modelled as insertion-ordered association lists; the operations below
mirror dict assignment (overwrite keeps the key position, fresh keys are
appended) so that iteration order matches CPython.  Fallible Python code
is modelled with Except PyExc; an uncaught Python exception is an
Except.error value.
-/

/-- Python exceptions that the modelled code can raise or catch. -/
inductive PyExc where
  | keyError
  | typeError
  | valueError
  | runtimeError
deriving DecidableEq

/-- JSON-style Python values as stored in tinydb documents. -/
inductive PyVal where
  | none
  | bool (b : Bool)
  | int (n : Int)
  | str (s : String)
  | list (xs : List PyVal)
  | dict (kvs : List (String × PyVal))

/-- Dict lookup on an association list (Python `d.get(k)` / `k in d`). -/
def alistLookup [BEq κ] (l : List (κ × α)) (k : κ) : Option α :=
  match l with
  | [] => Option.none
  | (k1, v) :: rest => if k1 == k then some v else alistLookup rest k

/-- Dict assignment `d[k] = v`: overwriting keeps the key position (CPython
dict semantics), a fresh key is appended at the end. -/
def alistSet [BEq κ] (l : List (κ × α)) (k : κ) (v : α) : List (κ × α) :=
  match l with
  | [] => [(k, v)]
  | (k1, w) :: rest =>
    if k1 == k then (k1, v) :: rest else (k1, w) :: alistSet rest k v

/-- Dict `d.pop(k)`: returns the removed value and the remaining dict, or
nothing when the key is absent (Python raises KeyError there). -/
def alistPop [BEq κ] (l : List (κ × α)) (k : κ) : Option (α × List (κ × α)) :=
  match l with
  | [] => Option.none
  | (k1, v) :: rest =>
    if k1 == k then some (v, rest)
    else (alistPop rest k).map (fun p => (p.1, (k1, v) :: p.2))

/-
Decimal conversion between document IDs (Python ints) and their storage
representation (Python strings): models str(doc_id) and int(doc_id_str)
at the storage boundary in Table._update_table / Table._get_next_id.
-/

/-- The decimal digit character for a value below ten. -/
def pyDigitChar (d : Nat) : Char := Char.ofNat (48 + d)

/-- Fuel-driven decimal digit computation; the fuel only serves to make
the recursion structural (so that terms reduce definitionally), and any
fuel above the argument yields the same digits. -/
def natDigitsAux : Nat → Nat → List Char
  | 0, _ => []
  | fuel + 1, n =>
    if n < 10 then [pyDigitChar n]
    else natDigitsAux fuel (n / 10) ++ [pyDigitChar (n % 10)]

/-- Decimal digits of a natural number, most significant first; models the
digit sequence produced by Python str(n) for a non-negative int. -/
def natDigits (n : Nat) : List Char := natDigitsAux (n + 1) n

/-- Python str(n) for a non-negative int. -/
def pyStr (n : Nat) : String := String.mk (natDigits n)

/-- Numeric value of a decimal digit character. -/
def parseDigit (c : Char) : Option Nat :=
  if 48 ≤ c.toNat ∧ c.toNat ≤ 57 then some (c.toNat - 48) else Option.none

/-- Accumulating decimal parser over a character list. -/
def parseNatGo (acc : Nat) : List Char → Option Nat
  | [] => some acc
  | c :: cs =>
    match parseDigit c with
    | some d => parseNatGo (acc * 10 + d) cs
    | Option.none => Option.none

/-- Python int(s) on a plain string of decimal digits; anything else fails. -/
def parseNat (s : String) : Option Nat :=
  match s.data with
  | [] => Option.none
  | cs => parseNatGo 0 cs

/-- Conversion of a raw storage key to a document ID
(`self.document_id_class(doc_id)` in Table._update_table).  A key that is
not a decimal numeral is mapped to 0; such keys never occur in states that
tinydb itself writes, where every key is str(doc_id). -/
def docIdOfStr (s : String) : Nat := (parseNat s).getD 0

/-
LRUCache (tinydb/utils.py, lines 14 to 74).  The OrderedDict self.__cache
is modelled as an association list in recency order, oldest entry first;
keys are compared with the BEq instance, which plays the role of the
Python hash/eq contract.  A stored Python value may itself be None, so
the value slot has type Option α with Option.none modelling Python None.
-/

/-- An LRU cache: optional capacity (Python None capacity means unbounded)
plus the ordered dict of entries, oldest first. -/
structure LRUCache (κ : Type) (α : Type) where
  capacity : Option Nat
  cache : List (κ × Option α)

/-- Python `self.__cache.get(key)` inside LRUCache: evaluates to None both
for an absent key and for a stored None, exactly as in CPython. -/
def LRUCache.getRaw [BEq κ] (c : LRUCache κ α) (k : κ) : Option α :=
  match alistLookup c.cache k with
  | some v => v
  | Option.none => Option.none

/-- LRUCache.get (utils.py lines 52 to 62): when `value is not None` the
entry is deleted and re-inserted, making it most-recently-used, and the
value is returned; otherwise the caller-supplied default is returned and
the cache is left untouched. -/
def LRUCache.get [BEq κ] (c : LRUCache κ α) (k : κ) (dflt : Option α) :
    Option α × LRUCache κ α :=
  match c.getRaw k with
  | some v =>
    (some v,
      { c with cache := (c.cache.filter (fun p => !(p.1 == k))) ++ [(k, some v)] })
  | Option.none => (dflt, c)

/-- LRUCache.set (utils.py lines 64 to 74): when the value currently stored
under the key is truthy (`if self.__cache.get(key):`) the entry is deleted
and re-inserted at the most-recently-used end; otherwise a plain dict
assignment is performed (keeping the position of an existing key) and, if
the cache has a capacity and its length now exceeds it, the oldest entry
is evicted with popitem(last=False). -/
def LRUCache.set [BEq κ] (truthy : α → Bool) (c : LRUCache κ α) (k : κ)
    (v : Option α) : LRUCache κ α :=
  if (match c.getRaw k with
      | some w => truthy w
      | Option.none => false) then
    { c with cache := (c.cache.filter (fun p => !(p.1 == k))) ++ [(k, v)] }
  else
    let newCache :=
      match alistLookup c.cache k with
      | some _ => alistSet c.cache k v
      | Option.none => c.cache ++ [(k, v)]
    match c.capacity with
    | some cap =>
      if cap < newCache.length then { c with cache := newCache.drop 1 }
      else { c with cache := newCache }
    | Option.none => { c with cache := newCache }

/-- LRUCache.clear (utils.py line 28). -/
def LRUCache.clear (c : LRUCache κ α) : LRUCache κ α := { c with cache := [] }

/-- LRUCache.length (utils.py line 24): number of current entries. -/
def LRUCache.length (c : LRUCache κ α) : Nat := c.cache.length

/-
Python equality (the == operator) on PyVal: numeric cross-equality between
bool and int (True == 1 in Python), elementwise equality for lists, and
order-insensitive key/value equality for dicts.  Dict containment looks a
key up by its first occurrence; a CPython dict cannot hold a key twice, so
this coincides with CPython on every representable dict.
-/

mutual

def pyEq : PyVal → PyVal → Bool
  | PyVal.none, PyVal.none => true
  | PyVal.bool a, PyVal.bool b => a == b
  | PyVal.bool a, PyVal.int n => (if a then (1 : Int) else 0) == n
  | PyVal.int n, PyVal.bool a => n == (if a then (1 : Int) else 0)
  | PyVal.int a, PyVal.int b => a == b
  | PyVal.str a, PyVal.str b => a == b
  | PyVal.list xs, PyVal.list ys => pyEqList xs ys
  | PyVal.dict xs, PyVal.dict ys => pyDictSub xs ys && pyDictSub ys xs
  | _, _ => false
termination_by a b => sizeOf a + sizeOf b

def pyEqList : List PyVal → List PyVal → Bool
  | [], [] => true
  | x :: xs, y :: ys => pyEq x y && pyEqList xs ys
  | _, _ => false
termination_by xs ys => sizeOf xs + sizeOf ys

def pyDictSub : List (String × PyVal) → List (String × PyVal) → Bool
  | [], _ => true
  | (k, v) :: rest, ys => pyLookupEq k v ys && pyDictSub rest ys
termination_by xs ys => sizeOf xs + sizeOf ys

def pyLookupEq : String → PyVal → List (String × PyVal) → Bool
  | _, _, [] => false
  | k, v, (k1, w) :: rest => if k == k1 then pyEq v w else pyLookupEq k v rest
termination_by _k v ys => sizeOf v + sizeOf ys

end

/-- Python value[part] for a string part (queries.py line 235): dict lookup
raising KeyError when the key is absent; indexing a list or a string with a
string raises TypeError, as does subscripting a scalar. -/
def pyGetItem : PyVal → String → Except PyExc PyVal
  | PyVal.dict kvs, k =>
    match alistLookup kvs k with
    | some v => Except.ok v
    | Option.none => Except.error PyExc.keyError
  | _, _ => Except.error PyExc.typeError

/-- Python iteration as used by is_sequence / any / all (queries.py lines
33 to 34): an object is a sequence iff it has __iter__; lists iterate
their elements, strings their characters, dicts their keys; scalars are
not iterable. -/
def pyIter : PyVal → Option (List PyVal)
  | PyVal.list xs => some xs
  | PyVal.str s => some (s.data.map (fun c => PyVal.str (String.mk [c])))
  | PyVal.dict kvs => some (kvs.map (fun p => PyVal.str p.1))
  | _ => Option.none

/-- Character-list prefix test used by the substring model. -/
def charsStartWith : List Char → List Char → Bool
  | _, [] => true
  | [], _ :: _ => false
  | c :: cs, d :: ds => c == d && charsStartWith cs ds

/-- Character-list substring test used by the substring model. -/
def charsHaveSub : List Char → List Char → Bool
  | [], sub => sub.isEmpty
  | c :: cs, sub => charsStartWith (c :: cs) sub || charsHaveSub cs sub

/-- Python `e in container`: equality scan for a list, substring test for a
string (raising TypeError for a non-string element), key membership for a
dict (raising TypeError for unhashable elements), TypeError for scalars. -/
def pyContains (container : PyVal) (e : PyVal) : Except PyExc Bool :=
  match container with
  | PyVal.list xs => Except.ok (xs.any (fun x => pyEq x e))
  | PyVal.str s =>
    match e with
    | PyVal.str sub => Except.ok (charsHaveSub s.data sub.data)
    | _ => Except.error PyExc.typeError
  | PyVal.dict kvs =>
    match e with
    | PyVal.str k => Except.ok ((alistLookup kvs k).isSome)
    | PyVal.list _ => Except.error PyExc.typeError
    | PyVal.dict _ => Except.error PyExc.typeError
    | _ => Except.ok false
  | _ => Except.error PyExc.typeError

/-- Lazy Python any() over an Except-producing predicate. -/
def anyM (f : PyVal → Except PyExc Bool) : List PyVal → Except PyExc Bool
  | [] => Except.ok false
  | x :: xs =>
    match f x with
    | Except.ok true => Except.ok true
    | Except.ok false => anyM f xs
    | Except.error e => Except.error e

/-- Lazy Python all() over an Except-producing predicate. -/
def allM (f : PyVal → Except PyExc Bool) : List PyVal → Except PyExc Bool
  | [] => Except.ok true
  | x :: xs =>
    match f x with
    | Except.ok true => allM f xs
    | Except.ok false => Except.ok false
    | Except.error e => Except.error e

/-
Structural equality on PyVal.  Identity values of queries are compared in
the query cache with Python ==; on the frozen argument values appearing in
those tuples, structural equality coincides with Python equality up to the
bool/int cross-equality and dict key reordering, neither of which any
claim exercises.  Unlike pyEq, structural equality is reflexive on every
representable value, which the commutativity proofs need.
-/

mutual

def pyBeq : PyVal → PyVal → Bool
  | PyVal.none, PyVal.none => true
  | PyVal.bool a, PyVal.bool b => a == b
  | PyVal.int a, PyVal.int b => a == b
  | PyVal.str a, PyVal.str b => a == b
  | PyVal.list xs, PyVal.list ys => pyBeqList xs ys
  | PyVal.dict xs, PyVal.dict ys => pyBeqDict xs ys
  | _, _ => false
termination_by a b => sizeOf a + sizeOf b

def pyBeqList : List PyVal → List PyVal → Bool
  | [], [] => true
  | x :: xs, y :: ys => pyBeq x y && pyBeqList xs ys
  | _, _ => false
termination_by xs ys => sizeOf xs + sizeOf ys

def pyBeqDict : List (String × PyVal) → List (String × PyVal) → Bool
  | [], [] => true
  | (k, v) :: xs, (k1, w) :: ys => k == k1 && pyBeq v w && pyBeqDict xs ys
  | _, _ => false
termination_by xs ys => sizeOf xs + sizeOf ys

end

/-
Identity values of query instances: the hashval tuples built in
queries.py.  rootH is the (None,) of the Query() root, noopH the () of
noop(), pathH the ('path', path) of field accesses.  leafH covers the
tuples (tag, path, frozen-arg) and (tag, path) of the built-in tests
(freeze only swaps dicts and lists for hashable twins with the same
equality behaviour, so the frozen argument is kept as a PyVal).  leafSubH
covers any/all with a query condition: the third tuple component is the
condition instance itself, which Python compares via QueryInstance.__eq__,
i.e. by identity value.  leafFnH covers test(), whose tuple holds a
function object compared by object identity, modelled by a numeric tag,
and the tuple of extra arguments.
-/

inductive HVal where
  | rootH
  | noopH
  | pathH (path : List String)
  | leafH (tag : String) (path : List String) (arg : PyVal)
  | leafSubH (tag : String) (path : List String) (sub : Option HVal)
  | leafFnH (tag : String) (path : List String) (fid : Nat) (args : PyVal)
  | andH (a b : HVal)
  | orH (a b : HVal)
  | notH (a : HVal)

/-- Python equality of identity values.  The ('and', frozenset) and
('or', frozenset) tuples compare their frozensets as two-element sets, so
the operand order is irrelevant; on a condition slot (leafSubH) the
comparison is QueryInstance.__eq__, where a None identity on both sides
compares equal (Python None == None). -/
def hvEq : HVal → HVal → Bool
  | HVal.rootH, HVal.rootH => true
  | HVal.noopH, HVal.noopH => true
  | HVal.pathH p, HVal.pathH q => p == q
  | HVal.leafH t p a, HVal.leafH t1 p1 a1 => t == t1 && p == p1 && pyBeq a a1
  | HVal.leafSubH t p s, HVal.leafSubH t1 p1 s1 =>
    t == t1 && p == p1 &&
      (match s, s1 with
       | some h, some h1 => hvEq h h1
       | Option.none, Option.none => true
       | _, _ => false)
  | HVal.leafFnH t p f a, HVal.leafFnH t1 p1 f1 a1 =>
    t == t1 && p == p1 && f == f1 && pyBeq a a1
  | HVal.andH a b, HVal.andH c d => (hvEq a c && hvEq b d) || (hvEq a d && hvEq b c)
  | HVal.orH a b, HVal.orH c d => (hvEq a c && hvEq b d) || (hvEq a d && hvEq b c)
  | HVal.notH a, HVal.notH b => hvEq a b
  | _, _ => false

instance instBEqHVal : BEq HVal := ⟨hvEq⟩

/-
Python hash values of identity tuples (hash(self._hash)).  CPython hashes
a tuple by sequentially mixing the hashes of its components, and hashes a
frozenset by a commutative XOR-style mix of the shuffled hashes of its
elements; the latter is what makes hash(a & b) == hash(b & a).  The
numeric constants below are irrelevant to every claim; only the shape
(sequential mixing for tuples, commutative mixing for frozensets) is.
-/

/-- Sequential hash mixing (tuple components). -/
def hashMix (a b : Nat) : Nat := (a * 1000003 + b) % (2 ^ 64)

/-- Per-element shuffle applied before the commutative frozenset mix. -/
def hashShuffle (a : Nat) : Nat := (a * 69069 + 907133923) % (2 ^ 64)

/-- String hashing. -/
def strHash (s : String) : Nat := s.data.foldl (fun a c => hashMix a c.toNat) 5381

/-- List-of-strings hashing (path tuples). -/
def pathHash (p : List String) : Nat := p.foldl (fun a s => hashMix a (strHash s)) 7919

mutual

def pyHashV : PyVal → Nat
  | PyVal.none => 97
  | PyVal.bool b => if b then 1 else 0
  | PyVal.int n => (n % (2 ^ 64)).toNat
  | PyVal.str s => strHash s
  | PyVal.list xs => hashMix 5 (pyHashList xs)
  | PyVal.dict kvs => hashMix 7 (pyHashDict kvs)
termination_by v => sizeOf v

def pyHashList : List PyVal → Nat
  | [] => 2
  | x :: xs => hashMix (pyHashV x) (pyHashList xs)
termination_by xs => sizeOf xs

def pyHashDict : List (String × PyVal) → Nat
  | [] => 3
  | (k, v) :: rest => hashMix (hashMix (strHash k) (pyHashV v)) (pyHashDict rest)
termination_by kvs => sizeOf kvs

end

/-- Hash of an identity value; the andH/orH cases mix the two operand
hashes commutatively (frozenset hashing). -/
def hvHash : HVal → Nat
  | HVal.rootH => hashMix 11 97
  | HVal.noopH => 5740354900026072187
  | HVal.pathH p => hashMix (strHash "path") (pathHash p)
  | HVal.leafH t p a => hashMix (hashMix (strHash t) (pathHash p)) (pyHashV a)
  | HVal.leafSubH t p s =>
    hashMix (hashMix (strHash t) (pathHash p))
      (match s with
       | some h => hvHash h
       | Option.none => 97)
  | HVal.leafFnH t p f a =>
    hashMix (hashMix (hashMix (strHash t) (pathHash p)) f) (pyHashV a)
  | HVal.andH a b =>
    hashMix (strHash "and") (hashShuffle (hvHash a) ^^^ hashShuffle (hvHash b))
  | HVal.orH a b =>
    hashMix (strHash "or") (hashShuffle (hvHash a) ^^^ hashShuffle (hvHash b))
  | HVal.notH a => hashMix (strHash "not") (hvHash a)

/-- QueryInstance (queries.py lines 61 to 133): the test closure plus the
optional identity value _hash; a missing identity (_hash is None) marks
the instance non-cacheable. -/
structure QueryInstance where
  test : PyVal → Except PyExc Bool
  hashval : Option HVal

/-- QueryInstance.is_cacheable (queries.py line 82). -/
def QueryInstance.cacheable (q : QueryInstance) : Bool := q.hashval.isSome

/-- Python hash(q) for a query instance: hash of its identity value,
hash(None) for a non-cacheable one. -/
def QueryInstance.pyHash (q : QueryInstance) : Nat :=
  match q.hashval with
  | some h => hvHash h
  | Option.none => 97

/-- QueryInstance.__eq__ (queries.py lines 103 to 107): equality of
identity values; two non-cacheable instances compare equal because Python
None == None holds. -/
def qiEq (a b : QueryInstance) : Bool :=
  match a.hashval, b.hashval with
  | some h, some h1 => hvEq h h1
  | Option.none, Option.none => true
  | _, _ => false

/-- QueryInstance.__and__ (queries.py lines 111 to 119): lazy conjunction
of the tests; the identity is ('and', frozenset of both identities) when
both operands are cacheable, else None. -/
def QueryInstance.andQ (a b : QueryInstance) : QueryInstance :=
  { test := fun v =>
      match a.test v with
      | Except.ok true => b.test v
      | Except.ok false => Except.ok false
      | Except.error e => Except.error e,
    hashval :=
      match a.hashval, b.hashval with
      | some h1, some h2 => some (HVal.andH h1 h2)
      | _, _ => Option.none }

/-- QueryInstance.__or__ (queries.py lines 121 to 129): lazy disjunction;
identity ('or', frozenset of both identities) when both operands are
cacheable, else None. -/
def QueryInstance.orQ (a b : QueryInstance) : QueryInstance :=
  { test := fun v =>
      match a.test v with
      | Except.ok true => Except.ok true
      | Except.ok false => b.test v
      | Except.error e => Except.error e,
    hashval :=
      match a.hashval, b.hashval with
      | some h1, some h2 => some (HVal.orH h1 h2)
      | _, _ => Option.none }

/-- QueryInstance.__invert__ (queries.py lines 131 to 133): negated test;
identity ('not', operand identity) when the operand is cacheable, else
None. -/
def QueryInstance.notQ (a : QueryInstance) : QueryInstance :=
  { test := fun v =>
      match a.test v with
      | Except.ok b => Except.ok (!b)
      | Except.error e => Except.error e,
    hashval :=
      match a.hashval with
      | some h => some (HVal.notH h)
      | Option.none => Option.none }

/-
The Query builder (queries.py class Query) and its test methods.
-/

/-- One segment of a query path: a string field access or a transform
function added by Query.map.  Transform functions are never compared (a
path containing one belongs to a non-cacheable builder), so no identity
tag is needed. -/
inductive PathPart where
  | field (s : String)
  | func (f : PyVal → Except PyExc PyVal)

/-- Path resolution, the for loop inside the runner closure of
Query._generate_test (queries.py lines 232 to 237). -/
def resolvePath : List PathPart → PyVal → Except PyExc PyVal
  | [], v => Except.ok v
  | PathPart.field s :: rest, v =>
    match pyGetItem v s with
    | Except.ok v1 => resolvePath rest v1
    | Except.error e => Except.error e
  | PathPart.func f :: rest, v =>
    match f v with
    | Except.ok v1 => resolvePath rest v1
    | Except.error e => Except.error e

/-- The runner closure of Query._generate_test (queries.py lines 230 to
242): path resolution runs in a try block whose except clause
`except (KeyError, TypeError): return False` swallows exactly those two
exceptions; any other exception from a transform propagates, and the test
itself runs in the else block, outside the try, so its exceptions always
propagate. -/
def queryRunner (path : List PathPart) (test : PyVal → Except PyExc Bool)
    (value : PyVal) : Except PyExc Bool :=
  match resolvePath path value with
  | Except.ok v => test v
  | Except.error PyExc.keyError => Except.ok false
  | Except.error PyExc.typeError => Except.ok false
  | Except.error e => Except.error e

/-- The builder state: the accumulated _path and the builder's own _hash
(('path', path) after field accesses, (None,) for the root, None once a
transform was added by map). -/
structure QueryB where
  path : List PathPart
  hashval : Option HVal

/-- Query() (queries.py lines 169 to 180): empty path, identity (None,). -/
def queryRoot : QueryB := { path := [], hashval := some HVal.rootH }

/-- Calling the Query() root directly: its test is notest, which raises
RuntimeError('Empty query was evaluated'). -/
def queryRootInstance : QueryInstance :=
  { test := fun _ => Except.error PyExc.runtimeError,
    hashval := some HVal.rootH }

/-- Extracts the string path of a builder; a builder whose _hash is not
None has a pure string path (map, the only operation inserting transform
parts, clears the hash and nothing restores it). -/
def pathOfParts : List PathPart → Option (List String)
  | [] => some []
  | PathPart.field s :: rest =>
    match pathOfParts rest with
    | some ss => some (s :: ss)
    | Option.none => Option.none
  | PathPart.func _ :: _ => Option.none

/-- The string path used in hashval tuples; meaningful exactly on
cacheable builders, the only place the hashval survives. -/
def QueryB.pathKey (q : QueryB) : List String := (pathOfParts q.path).getD []

/-- Query.__getattr__ / __getitem__ (queries.py lines 188 to 211): a new
builder with the path extended by the field, with identity
('path', extended path) when the builder was cacheable, else None. -/
def QueryB.getattr (q : QueryB) (item : String) : QueryB :=
  let newPath := q.path ++ [PathPart.field item]
  { path := newPath,
    hashval :=
      if q.hashval.isSome then
        match pathOfParts newPath with
        | some sp => some (HVal.pathH sp)
        | Option.none => Option.none
      else Option.none }

/-- The where(key) shorthand (queries.py lines 522 to 526). -/
def whereQ (key : String) : QueryB := queryRoot.getattr key

/-- Query.map (queries.py lines 506 to 520): extends the path with an
arbitrary transform and kills the hash, making every instance generated
from the result non-cacheable. -/
def QueryB.mapQ (q : QueryB) (fn : PyVal → Except PyExc PyVal) : QueryB :=
  { path := q.path ++ [PathPart.func fn], hashval := Option.none }

/-- The QueryInstance built by Query._generate_test once its path guard
has passed (queries.py lines 244 to 247): the runner over the builder's
path, with the supplied identity tuple when the builder is cacheable and
None otherwise. -/
def QueryB.genInstance (q : QueryB) (test : PyVal → Except PyExc Bool)
    (hv : HVal) : QueryInstance :=
  { test := fun value => queryRunner q.path test value,
    hashval := if q.hashval.isSome then some hv else Option.none }

/-- Query._generate_test (queries.py lines 213 to 247) including the
build-time guard raising ValueError('Query has no path') for an empty
path unless allow_empty_path is set. -/
def QueryB.generate_test (q : QueryB) (test : PyVal → Except PyExc Bool)
    (hv : HVal) (allowEmptyPath : Bool) : Except PyExc QueryInstance :=
  if q.path.isEmpty && !allowEmptyPath then Except.error PyExc.valueError
  else Except.ok (q.genInstance test hv)

/-- The per-value test of Query.__eq__ (queries.py lines 249 to 260). -/
def eqTestFun (rhs : PyVal) : PyVal → Except PyExc Bool :=
  fun value => Except.ok (pyEq value rhs)

/-- The per-value test of Query.__ne__ (queries.py lines 262 to 273). -/
def neTestFun (rhs : PyVal) : PyVal → Except PyExc Bool :=
  fun value => Except.ok (!pyEq value rhs)

/-- The per-value test of Query.exists (queries.py lines 327 to 336). -/
def existsTestFun : PyVal → Except PyExc Bool := fun _ => Except.ok true

/-- The per-value test of Query.matches and Query.search (queries.py lines
338 to 372): a non-string resolved value fails, a string one is given to
the regex matcher, modelled as a total predicate on strings (re.match /
re.search with the method's pattern and flags). -/
def regexTestFun (matcher : String → Bool) : PyVal → Except PyExc Bool :=
  fun value =>
    match value with
    | PyVal.str s => Except.ok (matcher s)
    | _ => Except.ok false

/-- The per-value test of Query.one_of (queries.py lines 467 to 478):
Python `value in items`. -/
def oneOfTestFun (items : List PyVal) : PyVal → Except PyExc Bool :=
  fun value => Except.ok (items.any (fun i => pyEq value i))

/-- The per-value test of Query.any with a list condition (queries.py
lines 425 to 427): is_sequence(value) and any(e in cond for e in value). -/
def anyListTestFun (items : List PyVal) : PyVal → Except PyExc Bool :=
  fun value =>
    match pyIter value with
    | some elems => Except.ok (elems.any (fun e => items.any (fun i => pyEq e i)))
    | Option.none => Except.ok false

/-- The per-value test of Query.any with a query condition (queries.py
lines 421 to 423): is_sequence(value) and any(cond(e) for e in value). -/
def anySubTestFun (cond : QueryInstance) : PyVal → Except PyExc Bool :=
  fun value =>
    match pyIter value with
    | some elems => anyM cond.test elems
    | Option.none => Except.ok false

/-- The per-value test of Query.all with a query condition (queries.py
lines 454 to 456). -/
def allSubTestFun (cond : QueryInstance) : PyVal → Except PyExc Bool :=
  fun value =>
    match pyIter value with
    | some elems => allM cond.test elems
    | Option.none => Except.ok false

/-- The per-value test of Query.all with a list condition (queries.py
lines 458 to 460): is_sequence(value) and all(e in value for e in cond);
the membership test on the resolved value itself may raise TypeError
(e.g. a non-string element against a string value). -/
def allListTestFun (items : List PyVal) : PyVal → Except PyExc Bool :=
  fun value =>
    match pyIter value with
    | some _ => allM (fun e => pyContains value e) items
    | Option.none => Except.ok false

/-- The loop of the Query.fragment test (queries.py lines 481 to 486):
for each key of the fragment, `key not in value or value[key] !=
document[key]` fails the document; both the membership test and the
indexing may raise on non-dict values, and such exceptions propagate. -/
def fragRun : List (String × PyVal) → PyVal → Except PyExc Bool
  | [], _ => Except.ok true
  | (k, v) :: rest, value =>
    match pyContains value (PyVal.str k) with
    | Except.error e => Except.error e
    | Except.ok false => Except.ok false
    | Except.ok true =>
      match pyGetItem value k with
      | Except.error e => Except.error e
      | Except.ok w => if pyEq w v then fragRun rest value else Except.ok false

/-- The per-value test of Query.fragment. -/
def fragmentTestFun (document : List (String × PyVal)) : PyVal → Except PyExc Bool :=
  fun value => fragRun document value

/-- Query.test (queries.py lines 374 to 397): lambda value: func(value,
args); the modelled function already has the extra arguments folded in,
they appear in the identity tuple as args, and fid models the identity of
the Python function object. -/
def QueryB.testQuery (q : QueryB) (fid : Nat) (fn : PyVal → Except PyExc Bool)
    (args : PyVal) : Except PyExc QueryInstance :=
  q.generate_test fn (HVal.leafFnH "test" q.pathKey fid args) false

/-- Query.noop (queries.py lines 494 to 504): always True, identity (). -/
def queryNoop : QueryInstance :=
  { test := fun _ => Except.ok true, hashval := some HVal.noopH }

/-- Query.__eq__ as a builder method. -/
def QueryB.eqQuery (q : QueryB) (rhs : PyVal) : Except PyExc QueryInstance :=
  q.generate_test (eqTestFun rhs) (HVal.leafH "==" q.pathKey rhs) false

/-- Query.__ne__ as a builder method. -/
def QueryB.neQuery (q : QueryB) (rhs : PyVal) : Except PyExc QueryInstance :=
  q.generate_test (neTestFun rhs) (HVal.leafH "!=" q.pathKey rhs) false

/-- Query.exists as a builder method. -/
def QueryB.existsQuery (q : QueryB) : Except PyExc QueryInstance :=
  q.generate_test existsTestFun (HVal.leafH "exists" q.pathKey PyVal.none) false

/-- Query.matches as a builder method. -/
def QueryB.matchesQuery (q : QueryB) (regex : String) (matcher : String → Bool) :
    Except PyExc QueryInstance :=
  q.generate_test (regexTestFun matcher)
    (HVal.leafH "matches" q.pathKey (PyVal.str regex)) false

/-- Query.search as a builder method. -/
def QueryB.searchQuery (q : QueryB) (regex : String) (matcher : String → Bool) :
    Except PyExc QueryInstance :=
  q.generate_test (regexTestFun matcher)
    (HVal.leafH "search" q.pathKey (PyVal.str regex)) false

/-- Query.one_of as a builder method. -/
def QueryB.oneOfQuery (q : QueryB) (items : List PyVal) : Except PyExc QueryInstance :=
  q.generate_test (oneOfTestFun items)
    (HVal.leafH "one_of" q.pathKey (PyVal.list items)) false

/-- Query.any as a builder method (list condition). -/
def QueryB.anyListQuery (q : QueryB) (items : List PyVal) : Except PyExc QueryInstance :=
  q.generate_test (anyListTestFun items)
    (HVal.leafH "any" q.pathKey (PyVal.list items)) false

/-- Query.any as a builder method (query condition). -/
def QueryB.anySubQuery (q : QueryB) (cond : QueryInstance) : Except PyExc QueryInstance :=
  q.generate_test (anySubTestFun cond)
    (HVal.leafSubH "any" q.pathKey cond.hashval) false

/-- Query.all as a builder method (list condition). -/
def QueryB.allListQuery (q : QueryB) (items : List PyVal) : Except PyExc QueryInstance :=
  q.generate_test (allListTestFun items)
    (HVal.leafH "all" q.pathKey (PyVal.list items)) false

/-- Query.all as a builder method (query condition). -/
def QueryB.allSubQuery (q : QueryB) (cond : QueryInstance) : Except PyExc QueryInstance :=
  q.generate_test (allSubTestFun cond)
    (HVal.leafSubH "all" q.pathKey cond.hashval) false

/-- Query.fragment as a builder method (allow_empty_path is set). -/
def QueryB.fragmentQuery (q : QueryB) (document : List (String × PyVal)) :
    Except PyExc QueryInstance :=
  q.generate_test (fragmentTestFun document)
    (HVal.leafH "fragment" [] (PyVal.dict document)) true

/-- The builder reached by chained field accesses along a nonempty string
path: Query().p0.p1....pn, with identity ('path', path). -/
def strQueryB (p0 : String) (ps : List String) : QueryB :=
  { path := (p0 :: ps).map PathPart.field,
    hashval := some (HVal.pathH (p0 :: ps)) }

/-- Queries built through the builder along plain string paths using the
built-in tests whose per-value test cannot raise, closed under the three
combinators: the fragment of the query language covered by the totality
part of claim C1.  Paths are nonempty, as the _generate_test guard
requires. -/
inductive BuiltQuery where
  | eqB (p0 : String) (ps : List String) (rhs : PyVal)
  | neB (p0 : String) (ps : List String) (rhs : PyVal)
  | existsB (p0 : String) (ps : List String)
  | matchesB (p0 : String) (ps : List String) (regex : String) (matcher : String → Bool)
  | searchB (p0 : String) (ps : List String) (regex : String) (matcher : String → Bool)
  | oneOfB (p0 : String) (ps : List String) (items : List PyVal)
  | anyListB (p0 : String) (ps : List String) (items : List PyVal)
  | anyQB (p0 : String) (ps : List String) (sub : BuiltQuery)
  | allQB (p0 : String) (ps : List String) (sub : BuiltQuery)
  | andB (a b : BuiltQuery)
  | orB (a b : BuiltQuery)
  | notB (a : BuiltQuery)
  | noopB

/-- The QueryInstance denoted by a BuiltQuery; each case is the instance
the corresponding builder method returns (its path guard passes because
the path is nonempty). -/
def BuiltQuery.toInstance : BuiltQuery → QueryInstance
  | BuiltQuery.eqB p0 ps rhs =>
    (strQueryB p0 ps).genInstance (eqTestFun rhs) (HVal.leafH "==" (p0 :: ps) rhs)
  | BuiltQuery.neB p0 ps rhs =>
    (strQueryB p0 ps).genInstance (neTestFun rhs) (HVal.leafH "!=" (p0 :: ps) rhs)
  | BuiltQuery.existsB p0 ps =>
    (strQueryB p0 ps).genInstance existsTestFun (HVal.leafH "exists" (p0 :: ps) PyVal.none)
  | BuiltQuery.matchesB p0 ps regex matcher =>
    (strQueryB p0 ps).genInstance (regexTestFun matcher)
      (HVal.leafH "matches" (p0 :: ps) (PyVal.str regex))
  | BuiltQuery.searchB p0 ps regex matcher =>
    (strQueryB p0 ps).genInstance (regexTestFun matcher)
      (HVal.leafH "search" (p0 :: ps) (PyVal.str regex))
  | BuiltQuery.oneOfB p0 ps items =>
    (strQueryB p0 ps).genInstance (oneOfTestFun items)
      (HVal.leafH "one_of" (p0 :: ps) (PyVal.list items))
  | BuiltQuery.anyListB p0 ps items =>
    (strQueryB p0 ps).genInstance (anyListTestFun items)
      (HVal.leafH "any" (p0 :: ps) (PyVal.list items))
  | BuiltQuery.anyQB p0 ps sub =>
    (strQueryB p0 ps).genInstance (anySubTestFun sub.toInstance)
      (HVal.leafSubH "any" (p0 :: ps) sub.toInstance.hashval)
  | BuiltQuery.allQB p0 ps sub =>
    (strQueryB p0 ps).genInstance (allSubTestFun sub.toInstance)
      (HVal.leafSubH "all" (p0 :: ps) sub.toInstance.hashval)
  | BuiltQuery.andB a b => a.toInstance.andQ b.toInstance
  | BuiltQuery.orB a b => a.toInstance.orQ b.toInstance
  | BuiltQuery.notB a => a.toInstance.notQ
  | BuiltQuery.noopB => queryNoop

/-
The table layer (tinydb/table.py).  The storage field of a Table is the
in-memory model of the Storage collaborator: what Storage.read returns
(None for an uninitialized store); Storage.write replaces it.  Raw tables
are keyed by the string form of document IDs, converted tables by the IDs
themselves.
-/

/-- A document body: a string-keyed Python dict. -/
abbrev Doc := List (String × PyVal)

/-- A raw table as held by the storage: document bodies keyed by the
string form of their IDs. -/
abbrev RawTable := List (String × Doc)

/-- The whole persisted state: raw tables keyed by table name. -/
abbrev Tables := List (String × RawTable)

/-- A table as seen by updaters: document bodies keyed by document ID. -/
abbrev NatTable := List (Nat × Doc)

/-- Document (table.py lines 26 to 36): a document body together with its
doc_id. -/
structure Document where
  content : Doc
  doc_id : Nat

/-- A Table handle (table.py lines 97 to 112) together with the storage
state it owns in this model. -/
structure Table where
  storage : Option Tables
  name : String
  queryCache : LRUCache (Option HVal) (List Document)
  nextId : Option Nat

/-- The whole persisted state as _update_table reads it before writing it
back: what Storage.read returns, an uninitialized store counting as
empty. -/
def Table.tablesState (t : Table) : Tables :=
  match t.storage with
  | Option.none => []
  | some ts => ts

/-- Table._read_table (table.py lines 694 to 717): an uninitialized store
and a missing table both read as empty. -/
def Table.readTable (t : Table) : RawTable :=
  match t.storage with
  | Option.none => []
  | some tables =>
    match alistLookup tables t.name with
    | some table => table
    | Option.none => []

/-- The key conversion on read in Table._update_table (table.py lines 749
to 752): a dict comprehension turning string keys into document IDs,
modelled by a fold of dict assignments. -/
def convertTable (raw : RawTable) : NatTable :=
  raw.foldl (fun acc p => alistSet acc (docIdOfStr p.1) p.2) []

/-- The key conversion on write in Table._update_table (table.py lines 760
to 763): a dict comprehension turning document IDs back into string
keys. -/
def stringifyTable (tb : NatTable) : RawTable :=
  tb.foldl (fun acc p => alistSet acc (pyStr p.1) p.2) []

/-- Table._update_table (table.py lines 719 to 769): read the whole
storage, convert the raw table's keys to document IDs, run the updater,
convert back to string keys, write everything back, then clear the query
cache.  The updater receives the converted table and the Table handle
(Python updater closures mutate self through it, e.g. _get_next_id in
insert_multiple) and either raises, leaving storage and cache untouched,
or returns the new table contents plus a result. -/
def Table.updateTable (t : Table)
    (updater : NatTable → Table → (Except PyExc (NatTable × α)) × Table) :
    Except PyExc α × Table :=
  let tables :=
    match t.storage with
    | Option.none => []
    | some ts => ts
  let rawTable :=
    match alistLookup tables t.name with
    | some rt => rt
    | Option.none => []
  match updater (convertTable rawTable) t with
  | (Except.error e, t1) => (Except.error e, t1)
  | (Except.ok (table1, a), t1) =>
    (Except.ok a,
      { t1 with
          storage := some (alistSet tables t.name (stringifyTable table1)),
          queryCache := t1.queryCache.clear })

/-- Table._get_next_id (table.py lines 659 to 692): the remembered counter
when there is one; otherwise 1 on an empty table, else one past the
maximum existing ID (Python max over a nonempty list of naturals, which
equals the fold of Nat.max from 0). -/
def Table.getNextId (t : Table) : Nat × Table :=
  match t.nextId with
  | some n => (n, { t with nextId := some (n + 1) })
  | Option.none =>
    let table := t.readTable
    if table.isEmpty then (1, { t with nextId := some 2 })
    else
      let maxId := (table.map (fun p => docIdOfStr p.1)).foldl Nat.max 0
      (maxId + 1, { t with nextId := some (maxId + 2) })

/-- The argument of Table.insert: either a plain mapping or a Document
carrying an explicit doc_id.  A non-mapping argument, which insert rejects
up front with ValueError('Document is not a Mapping'), is not
representable here. -/
inductive InsDoc where
  | plain (d : Doc)
  | withId (id : Nat) (d : Doc)

/-- The body of an insert argument (dict(document)). -/
def InsDoc.content : InsDoc → Doc
  | InsDoc.plain d => d
  | InsDoc.withId _ d => d

/-- The updater closure of Table.insert (table.py lines 162 to 170):
raises ValueError when the ID already exists, otherwise stores
dict(document) under it. -/
def insertUpdater (docId : Nat) (d : Doc) :
    NatTable → Table → (Except PyExc (NatTable × Unit)) × Table :=
  fun table s =>
    if (alistLookup table docId).isSome then (Except.error PyExc.valueError, s)
    else (Except.ok (alistSet table docId d, ()), s)

/-- Table.insert (table.py lines 137 to 175): a Document argument uses its
explicit doc_id and resets the remembered next ID before the write; a
plain mapping draws the next free ID. -/
def Table.insert (t : Table) (document : InsDoc) : Except PyExc Nat × Table :=
  let (docId, t1) :=
    match document with
    | InsDoc.withId i _ => (i, { t with nextId := Option.none })
    | InsDoc.plain _ => t.getNextId
  let (r, t2) := t1.updateTable (insertUpdater docId document.content)
  (r.map (fun _ => docId), t2)

/-- The updater loop of Table.insert_multiple (table.py lines 186 to 214):
threads the in-progress table, the Table handle (_get_next_id reads the
old stored table through it) and the collected IDs; raises ValueError on a
duplicate explicit ID.  Unlike insert, the Document branch does not reset
the remembered next ID. -/
def insertManyGo : List InsDoc → NatTable → Table → List Nat →
    (Except PyExc (NatTable × List Nat)) × Table
  | [], table, s, acc => (Except.ok (table, acc.reverse), s)
  | d :: ds, table, s, acc =>
    match d with
    | InsDoc.withId i body =>
      if (alistLookup table i).isSome then (Except.error PyExc.valueError, s)
      else insertManyGo ds (alistSet table i body) s (i :: acc)
    | InsDoc.plain body =>
      let (i, s1) := s.getNextId
      insertManyGo ds (alistSet table i body) s1 (i :: acc)

/-- Table.insert_multiple (table.py lines 177 to 219). -/
def Table.insertMultiple (t : Table) (docs : List InsDoc) :
    Except PyExc (List Nat) × Table :=
  t.updateTable (fun table s => insertManyGo docs table s [])

/-- The fields argument of Table.update: a literal partial document merged
key-by-key, or a callable mutating the document in place. -/
inductive UpdFields where
  | mapping (fields : Doc)
  | callable (fn : Doc → Doc)

/-- Python dict.update(fields) on a document body. -/
def dictUpdate (d : Doc) (fields : Doc) : Doc :=
  fields.foldl (fun acc p => alistSet acc p.1 p.2) d

/-- The perform_update closures of Table.update (table.py lines 383 to
391): table[doc_id] raises KeyError when the ID is absent. -/
def performUpdate (fields : UpdFields) (table : NatTable) (docId : Nat) :
    Except PyExc NatTable :=
  match alistLookup table docId with
  | Option.none => Except.error PyExc.keyError
  | some doc =>
    match fields with
    | UpdFields.mapping fs => Except.ok (alistSet table docId (dictUpdate doc fs))
    | UpdFields.callable fn => Except.ok (alistSet table docId (fn doc))

/-- The single-document modification shared by both perform_update
variants (table.py lines 383 to 391): merge a mapping into the document
with dict.update, or apply the callable to it. -/
def applyFields : UpdFields → Doc → Doc
  | UpdFields.mapping fs, d => dictUpdate d fs
  | UpdFields.callable fn, d => fn d

/-- The updater loop of Table.update with doc_ids (table.py lines 399 to
402). -/
def updateByIdsGo (fields : UpdFields) : List Nat → NatTable → Except PyExc NatTable
  | [], table => Except.ok table
  | i :: rest, table =>
    match performUpdate fields table i with
    | Except.ok table1 => updateByIdsGo fields rest table1
    | Except.error e => Except.error e

/-- Table.update with a doc_ids list (table.py lines 393 to 407): the
returned IDs are list(doc_ids) itself, computed before the write ever
runs. -/
def Table.updateByIds (t : Table) (fields : UpdFields) (docIds : List Nat) :
    Except PyExc (List Nat) × Table :=
  let (r, t1) := t.updateTable (fun table s =>
    match updateByIdsGo fields docIds table with
    | Except.ok table1 => (Except.ok (table1, ()), s)
    | Except.error e => (Except.error e, s))
  (r.map (fun _ => docIds), t1)

/-- The updater loop of Table.update with a query (table.py lines 415 to
431): iterates over a snapshot of the keys, re-reading the current
document each time; a query exception propagates. -/
def updateByCondGo (fields : UpdFields) (cond : QueryInstance) :
    List Nat → NatTable → List Nat → Except PyExc (NatTable × List Nat)
  | [], table, acc => Except.ok (table, acc.reverse)
  | i :: rest, table, acc =>
    match alistLookup table i with
    | Option.none => Except.error PyExc.keyError
    | some doc =>
      match cond.test (PyVal.dict doc) with
      | Except.error e => Except.error e
      | Except.ok false => updateByCondGo fields cond rest table acc
      | Except.ok true =>
        match performUpdate fields table i with
        | Except.error e => Except.error e
        | Except.ok table1 => updateByCondGo fields cond rest table1 (i :: acc)

/-- Table.update with a query (table.py lines 409 to 436). -/
def Table.updateByCond (t : Table) (fields : UpdFields) (cond : QueryInstance) :
    Except PyExc (List Nat) × Table :=
  t.updateTable (fun table s =>
    (updateByCondGo fields cond (table.map Prod.fst) table [], s))

/-- The updater loop of Table.update with neither selector (table.py lines
438 to 455): update every document unconditionally. -/
def updateAllGo (fields : UpdFields) :
    List Nat → NatTable → List Nat → Except PyExc (NatTable × List Nat)
  | [], table, acc => Except.ok (table, acc.reverse)
  | i :: rest, table, acc =>
    match performUpdate fields table i with
    | Except.error e => Except.error e
    | Except.ok table1 => updateAllGo fields rest table1 (i :: acc)

/-- Table.update with neither cond nor doc_ids. -/
def Table.updateAll (t : Table) (fields : UpdFields) :
    Except PyExc (List Nat) × Table :=
  t.updateTable (fun table s => (updateAllGo fields (table.map Prod.fst) table [], s))

/-- The updater of Table.remove with doc_ids (table.py lines 572 to 574):
table.pop raises KeyError on a missing ID. -/
def removeByIdsGo : List Nat → NatTable → Except PyExc NatTable
  | [], table => Except.ok table
  | i :: rest, table =>
    match alistPop table i with
    | some (_, table1) => removeByIdsGo rest table1
    | Option.none => Except.error PyExc.keyError

/-- Table.remove with a doc_ids list (table.py lines 562 to 579): returns
list(doc_ids), computed before the write. -/
def Table.removeByIds (t : Table) (docIds : List Nat) :
    Except PyExc (List Nat) × Table :=
  let (r, t1) := t.updateTable (fun table s =>
    match removeByIdsGo docIds table with
    | Except.ok table1 => (Except.ok (table1, ()), s)
    | Except.error e => (Except.error e, s))
  (r.map (fun _ => docIds), t1)

/-- The updater loop of Table.remove with a query (table.py lines 587 to
604). -/
def removeByCondGo (cond : QueryInstance) :
    List Nat → NatTable → List Nat → Except PyExc (NatTable × List Nat)
  | [], table, acc => Except.ok (table, acc.reverse)
  | i :: rest, table, acc =>
    match alistLookup table i with
    | Option.none => Except.error PyExc.keyError
    | some doc =>
      match cond.test (PyVal.dict doc) with
      | Except.error e => Except.error e
      | Except.ok false => removeByCondGo cond rest table acc
      | Except.ok true =>
        match alistPop table i with
        | some (_, table1) => removeByCondGo cond rest table1 (i :: acc)
        | Option.none => Except.error PyExc.keyError

/-- Table.remove with a query (table.py lines 581 to 609). -/
def Table.removeByCond (t : Table) (cond : QueryInstance) :
    Except PyExc (List Nat) × Table :=
  t.updateTable (fun table s => (removeByCondGo cond (table.map Prod.fst) table [], s))

/-- Table.remove with neither selector (table.py line 611):
RuntimeError('Use truncate() to remove all documents'). -/
def Table.removeNone (t : Table) : Except PyExc (List Nat) × Table :=
  (Except.error PyExc.runtimeError, t)

/-- Table.truncate (table.py lines 613 to 622): clear all documents
through _update_table, then reset the ID counter. -/
def Table.truncate (t : Table) : Table :=
  let (_, t1) := t.updateTable (fun _table s => (Except.ok (([] : NatTable), ()), s))
  { t1 with nextId := Option.none }

/-- Python truthiness of a cached value, a list of documents: an empty
list is falsy. -/
def docsTruthy (docs : List Document) : Bool := !docs.isEmpty

/-- The scan of Table.search (table.py lines 252 to 256): evaluate the
query on every raw document in table order, converting matches to the
document class with their parsed IDs; a query exception aborts the scan
and propagates. -/
def scanDocs (cond : QueryInstance) : RawTable → Except PyExc (List Document)
  | [] => Except.ok []
  | (s, d) :: rest =>
    match cond.test (PyVal.dict d) with
    | Except.error e => Except.error e
    | Except.ok b =>
      match scanDocs cond rest with
      | Except.error e => Except.error e
      | Except.ok tail =>
        Except.ok (if b then Document.mk d (docIdOfStr s) :: tail else tail)

/-- Table.search (table.py lines 235 to 277): a cached result is returned
when the query cache holds one under the query's identity (the dict holding
the cache compares keys by hash/eq, i.e. by identity value); otherwise the
table is scanned and the result stored in the cache if the query declares
itself cacheable. -/
def Table.search (t : Table) (cond : QueryInstance) :
    Except PyExc (List Document) × Table :=
  let (cached, c1) := t.queryCache.get cond.hashval Option.none
  match cached with
  | some docs => (Except.ok docs, { t with queryCache := c1 })
  | Option.none =>
    match scanDocs cond t.readTable with
    | Except.error e => (Except.error e, { t with queryCache := c1 })
    | Except.ok docs =>
      if cond.cacheable then
        (Except.ok docs,
          { t with queryCache := LRUCache.set docsTruthy c1 cond.hashval (some docs) })
      else (Except.ok docs, { t with queryCache := c1 })

/-- Table.get with doc_id (table.py lines 298 to 308): a direct lookup of
str(doc_id) in the raw table; the table state is not changed. -/
def Table.getById (t : Table) (docId : Nat) : Option Document :=
  match alistLookup t.readTable (pyStr docId) with
  | Option.none => Option.none
  | some raw => some (Document.mk raw docId)

/-- The mutating table operations quantified over in claim C2. -/
inductive MutOp where
  | insertOp (d : InsDoc)
  | insertMultipleOp (ds : List InsDoc)
  | updateByIdsOp (fields : UpdFields) (docIds : List Nat)
  | updateByCondOp (fields : UpdFields) (cond : QueryInstance)
  | updateAllOp (fields : UpdFields)
  | removeByIdsOp (docIds : List Nat)
  | removeByCondOp (cond : QueryInstance)
  | truncateOp

/-- Application of a mutating operation, discarding its result value. -/
def applyMut : MutOp → Table → Except PyExc Unit × Table
  | MutOp.insertOp d, t =>
    let (r, t1) := t.insert d
    (r.map (fun _ => ()), t1)
  | MutOp.insertMultipleOp ds, t =>
    let (r, t1) := t.insertMultiple ds
    (r.map (fun _ => ()), t1)
  | MutOp.updateByIdsOp fields docIds, t =>
    let (r, t1) := t.updateByIds fields docIds
    (r.map (fun _ => ()), t1)
  | MutOp.updateByCondOp fields cond, t =>
    let (r, t1) := t.updateByCond fields cond
    (r.map (fun _ => ()), t1)
  | MutOp.updateAllOp fields, t =>
    let (r, t1) := t.updateAll fields
    (r.map (fun _ => ()), t1)
  | MutOp.removeByIdsOp docIds, t =>
    let (r, t1) := t.removeByIds docIds
    (r.map (fun _ => ()), t1)
  | MutOp.removeByCondOp cond, t =>
    let (r, t1) := t.removeByCond cond
    (r.map (fun _ => ()), t1)
  | MutOp.truncateOp, t => (Except.ok (), t.truncate)

/-- A freshly constructed table over an uninitialized store (table.py
lines 97 to 112, MemoryStorage initial read None): default query cache
capacity 10, no remembered next ID. -/
def freshTable (name : String) : Table :=
  { storage := Option.none, name := name,
    queryCache := { capacity := some 10, cache := [] },
    nextId := Option.none }


/-
Helper theorems about the decimal ID conversion.
-/

theorem pyDigitChar_toNat (d : Nat) (h : d < 10) : (pyDigitChar d).toNat = 48 + d := by
  have hvalid : Nat.isValidChar (48 + d) := Or.inl (by omega)
  simp [pyDigitChar, Char.ofNat, hvalid, Char.toNat, Char.ofNatAux]
  rfl

theorem natDigitsAux_eq (n : Nat) : ∀ (fuel1 fuel2 : Nat), n < fuel1 →
    n < fuel2 → natDigitsAux fuel1 n = natDigitsAux fuel2 n := by
  induction n using Nat.strong_induction_on with
  | _ n ih =>
    intro fuel1 fuel2 h1 h2
    cases fuel1 with
    | zero => omega
    | succ f1 =>
      cases fuel2 with
      | zero => omega
      | succ f2 =>
        rw [natDigitsAux, natDigitsAux]
        by_cases hn : n < 10
        · simp [hn]
        · simp only [hn, if_false]
          have hd : n / 10 < n := Nat.div_lt_self (by omega) (by omega)
          rw [ih (n / 10) hd f1 f2 (by omega) (by omega)]

theorem natDigits_base (n : Nat) (h : n < 10) :
    natDigits n = [pyDigitChar n] := by
  unfold natDigits
  rw [natDigitsAux]
  simp [h]

theorem natDigits_step (n : Nat) (h : ¬ n < 10) :
    natDigits n = natDigits (n / 10) ++ [pyDigitChar (n % 10)] := by
  have hd : n / 10 < n := Nat.div_lt_self (by omega) (by omega)
  unfold natDigits
  rw [natDigitsAux]
  simp only [h, if_false]
  rw [natDigitsAux_eq (n / 10) n (n / 10 + 1) (by omega) (by omega)]

theorem natDigits_ne_nil (n : Nat) : natDigits n ≠ [] := by
  by_cases h : n < 10
  · rw [natDigits_base n h]
    simp
  · rw [natDigits_step n h]
    simp

theorem parseNatGo_append (acc : Nat) (l1 l2 : List Char) :
    parseNatGo acc (l1 ++ l2) =
      match parseNatGo acc l1 with
      | some a => parseNatGo a l2
      | Option.none => Option.none := by
  induction l1 generalizing acc with
  | nil => simp [parseNatGo]
  | cons c cs ih =>
    simp only [List.cons_append, parseNatGo]
    cases parseDigit c with
    | none => simp
    | some d => simpa using ih (acc * 10 + d)

theorem parseNatGo_natDigits (n : Nat) :
    ∀ acc : Nat, parseNatGo acc (natDigits n) =
      some (acc * 10 ^ (natDigits n).length + n) := by
  induction n using Nat.strong_induction_on with
  | _ n ih =>
    intro acc
    by_cases h : n < 10
    · rw [natDigits_base n h]
      have hd : parseDigit (pyDigitChar n) = some n := by
        simp [parseDigit, pyDigitChar_toNat n h]
        omega
      simp [parseNatGo, hd]
    · rw [natDigits_step n h]
      have hlt : n / 10 < n := Nat.div_lt_self (by omega) (by omega)
      rw [parseNatGo_append]
      rw [ih (n / 10) hlt acc]
      have hd : parseDigit (pyDigitChar (n % 10)) = some (n % 10) := by
        have hm : n % 10 < 10 := Nat.mod_lt n (by omega)
        simp [parseDigit, pyDigitChar_toNat (n % 10) hm]
        omega
      simp only [parseNatGo, hd, List.length_append, List.length_cons,
        List.length_nil]
      have hrec : n = 10 * (n / 10) + n % 10 := (Nat.div_add_mod n 10).symm
      have hpow : 10 ^ (Nat.zero + 1) = 10 := by norm_num
      congr 1
      ring_nf
      omega

theorem parseNat_mk (l : List Char) (h : l ≠ []) :
    parseNat (String.mk l) = parseNatGo 0 l := by
  unfold parseNat
  cases l with
  | nil => exact absurd rfl h
  | cons c cs => rfl

theorem docIdOfStr_pyStr (n : Nat) : docIdOfStr (pyStr n) = n := by
  have h1 : parseNat (pyStr n) = some n := by
    rw [pyStr, parseNat_mk _ (natDigits_ne_nil n)]
    have := parseNatGo_natDigits n 0
    simpa using this
  simp [docIdOfStr, h1]

theorem pyStr_injective (a b : Nat) (h : pyStr a = pyStr b) : a = b := by
  have ha := docIdOfStr_pyStr a
  have hb := docIdOfStr_pyStr b
  rw [h] at ha
  omega
/-
Reflexivity of structural equality on PyVal and of identity-value
equality, needed for the commutativity claim.
-/

mutual

theorem pyBeq_refl : ∀ v : PyVal, pyBeq v v = true
  | PyVal.none => by simp [pyBeq]
  | PyVal.bool b => by simp [pyBeq]
  | PyVal.int n => by simp [pyBeq]
  | PyVal.str s => by simp [pyBeq]
  | PyVal.list xs => by
    have := pyBeqList_refl xs
    simp [pyBeq, this]
  | PyVal.dict kvs => by
    have := pyBeqDict_refl kvs
    simp [pyBeq, this]
termination_by v => sizeOf v

theorem pyBeqList_refl : ∀ xs : List PyVal, pyBeqList xs xs = true
  | [] => by simp [pyBeqList]
  | x :: xs => by
    have h1 := pyBeq_refl x
    have h2 := pyBeqList_refl xs
    simp [pyBeqList, h1, h2]
termination_by xs => sizeOf xs

theorem pyBeqDict_refl : ∀ kvs : List (String × PyVal), pyBeqDict kvs kvs = true
  | [] => by simp [pyBeqDict]
  | (k, v) :: rest => by
    have h1 := pyBeq_refl v
    have h2 := pyBeqDict_refl rest
    simp [pyBeqDict, h1, h2]
termination_by kvs => sizeOf kvs

end

theorem hvEq_refl : ∀ h : HVal, hvEq h h = true
  | HVal.rootH => rfl
  | HVal.noopH => rfl
  | HVal.pathH p => by simp [hvEq]
  | HVal.leafH t p a => by simp [hvEq, pyBeq_refl a]
  | HVal.leafSubH t p s => by
    cases s with
    | none => simp [hvEq]
    | some h => simp [hvEq, hvEq_refl h]
  | HVal.leafFnH t p f a => by simp [hvEq, pyBeq_refl a]
  | HVal.andH a b => by simp [hvEq, hvEq_refl a, hvEq_refl b]
  | HVal.orH a b => by simp [hvEq, hvEq_refl a, hvEq_refl b]
  | HVal.notH a => by simp [hvEq, hvEq_refl a]

/-- C3: for all cacheable query instances a and b, the AND and OR
combinators have order-independent identity: a & b and b & a are equal as
Python objects (QueryInstance equality is equality of identity values,
and the frozenset in the identity ignores operand order) and their
Python hashes agree (frozenset hashing is commutative); likewise for
OR. -/
theorem c3_and_or_commutative (a b : QueryInstance)
    (ha : a.cacheable = true) (hb : b.cacheable = true) :
    qiEq (a.andQ b) (b.andQ a) = true ∧
    (a.andQ b).pyHash = (b.andQ a).pyHash ∧
    qiEq (a.orQ b) (b.orQ a) = true ∧
    (a.orQ b).pyHash = (b.orQ a).pyHash := by
  obtain ⟨h1, hh1⟩ := Option.isSome_iff_exists.mp ha
  obtain ⟨h2, hh2⟩ := Option.isSome_iff_exists.mp hb
  refine ⟨?_, ?_, ?_, ?_⟩ <;>
    simp [QueryInstance.andQ, QueryInstance.orQ, qiEq, QueryInstance.pyHash,
      hh1, hh2, hvEq, hvHash, hvEq_refl, Nat.xor_comm]

/-- C3 witness: the commutativity at two concrete field-equality
queries. -/
theorem c3_witness :
    qiEq ((BuiltQuery.eqB "f" [] (PyVal.int 1)).toInstance.andQ
        (BuiltQuery.eqB "g" [] (PyVal.int 2)).toInstance)
      ((BuiltQuery.eqB "g" [] (PyVal.int 2)).toInstance.andQ
        (BuiltQuery.eqB "f" [] (PyVal.int 1)).toInstance) = true ∧
    ((BuiltQuery.eqB "f" [] (PyVal.int 1)).toInstance.andQ
        (BuiltQuery.eqB "g" [] (PyVal.int 2)).toInstance).pyHash
      = ((BuiltQuery.eqB "g" [] (PyVal.int 2)).toInstance.andQ
        (BuiltQuery.eqB "f" [] (PyVal.int 1)).toInstance).pyHash ∧
    qiEq ((BuiltQuery.eqB "f" [] (PyVal.int 1)).toInstance.orQ
        (BuiltQuery.eqB "g" [] (PyVal.int 2)).toInstance)
      ((BuiltQuery.eqB "g" [] (PyVal.int 2)).toInstance.orQ
        (BuiltQuery.eqB "f" [] (PyVal.int 1)).toInstance) = true ∧
    ((BuiltQuery.eqB "f" [] (PyVal.int 1)).toInstance.orQ
        (BuiltQuery.eqB "g" [] (PyVal.int 2)).toInstance).pyHash
      = ((BuiltQuery.eqB "g" [] (PyVal.int 2)).toInstance.orQ
        (BuiltQuery.eqB "f" [] (PyVal.int 1)).toInstance).pyHash :=
  c3_and_or_commutative (BuiltQuery.eqB "f" [] (PyVal.int 1)).toInstance
    (BuiltQuery.eqB "g" [] (PyVal.int 2)).toInstance (by rfl) (by rfl)

/-- C8: for an LRUCache constructed with capacity 0, every set leaves the
cache empty without raising (the fresh entry is inserted and immediately
evicted), so the length stays 0 after any sequence of sets. -/
theorem c8_capacity_zero_stays_empty [BEq κ] (truthy : α → Bool)
    (ops : List (κ × Option α)) :
    (ops.foldl (fun c p => LRUCache.set truthy c p.1 p.2)
      (LRUCache.mk (some 0) [])).length = 0 := by
  have hstep : ∀ (k : κ) (v : Option α),
      LRUCache.set truthy (LRUCache.mk (some 0) ([] : List (κ × Option α))) k v
        = LRUCache.mk (some 0) [] := fun k v => rfl
  induction ops with
  | nil => rfl
  | cons p rest ih =>
    simp only [List.foldl_cons, hstep]
    exact ih

/-- C6 counterexample: the claim quantifies over every stored value, but a
stored Python None defeats it: after set("k", None) on a capacity-2 cache
the key is present, unevicted, with stored value None, yet get("k", 5)
returns the default 5, not the stored value, because LRUCache.get guards
on `value is not None`. -/
theorem c6_counterexample :
    alistLookup (LRUCache.set (fun n : Nat => !(n == 0))
        (LRUCache.mk (some 2) []) "k" Option.none).cache "k"
      = some Option.none ∧
    ((LRUCache.set (fun n : Nat => !(n == 0)) (LRUCache.mk (some 2) [])
        "k" Option.none).get "k" (some 5)).1 = some 5 ∧
    (some 5 : Option Nat) ≠ Option.none := by
  refine ⟨by rfl, by rfl, by simp⟩

/-- C6 (amended): for a stored value that is not Python None, get returns
it and re-inserts the key at the most-recently-used end; for an absent key
get returns the caller-supplied default and leaves the cache unchanged, so
nothing is inserted on a miss.  A stored Python None, however, behaves
exactly like a miss. -/
theorem c6_lru_get_amended [BEq κ] (c : LRUCache κ α) (k : κ) (v : α)
    (dflt : Option α) :
    (alistLookup c.cache k = some (some v) →
      c.get k dflt =
        (some v, LRUCache.mk c.capacity
          ((c.cache.filter (fun p => !(p.1 == k))) ++ [(k, some v)]))) ∧
    (alistLookup c.cache k = Option.none → c.get k dflt = (dflt, c)) := by
  constructor
  · intro h
    simp [LRUCache.get, LRUCache.getRaw, h]
  · intro h
    simp [LRUCache.get, LRUCache.getRaw, h]

/-- C6 witness: a hit returns the stored value and moves the key to the
most-recently-used end; a miss returns the default and changes nothing. -/
theorem c6_witness :
    (LRUCache.mk (some 5) [("a", some 3), ("b", some 4)]
        : LRUCache String Nat).get "a" Option.none
      = (some 3, LRUCache.mk (some 5) [("b", some 4), ("a", some 3)]) ∧
    (LRUCache.mk (some 5) [("a", some 3), ("b", some 4)]
        : LRUCache String Nat).get "zz" (some 9)
      = (some 9, LRUCache.mk (some 5) [("a", some 3), ("b", some 4)]) := by
  constructor
  · have h := (c6_lru_get_amended
      (LRUCache.mk (some 5) [("a", some 3), ("b", some (4 : Nat))])
      "a" 3 Option.none).1 (by rfl)
    rw [h]
    rfl
  · exact (c6_lru_get_amended
      (LRUCache.mk (some 5) [("a", some 3), ("b", some (4 : Nat))])
      "zz" 0 (some 9)).2 (by rfl)

/-- A None key (the identity of a non-cacheable query) never matches a
cache entry whose key is a real identity value, because Python
None == tuple is False. -/
theorem alistLookup_none_of_all_some {β : Type}
    (cache : List (Option HVal × β))
    (hkeys : ∀ kv ∈ cache, kv.1.isSome = true) :
    alistLookup cache (Option.none : Option HVal) = Option.none := by
  induction cache with
  | nil => rfl
  | cons kv rest ih =>
    obtain ⟨k1, v⟩ := kv
    have h1 := hkeys (k1, v) (List.mem_cons_self _ _)
    cases k1 with
    | none => simp at h1
    | some h =>
      show alistLookup ((some h, v) :: rest) Option.none = Option.none
      rw [alistLookup]
      have hne : ((some h : Option HVal) == Option.none) = false := rfl
      rw [hne]
      simp only [Bool.false_eq_true, if_false]
      exact ih (fun kv1 hm => hkeys kv1 (List.mem_cons_of_mem _ hm))

theorem alistSet_fst_mem [BEq κ] (l : List (κ × α)) (k : κ) (v : α)
    (kv : κ × α) (hm : kv ∈ alistSet l k v) :
    kv.1 ∈ l.map Prod.fst ∨ kv.1 = k := by
  induction l with
  | nil =>
    rw [show alistSet ([] : List (κ × α)) k v = [(k, v)] from rfl] at hm
    have h1 := List.mem_singleton.mp hm
    exact Or.inr (by rw [h1])
  | cons p rest ih =>
    obtain ⟨k1, w⟩ := p
    by_cases hk : (k1 == k) = true
    · simp only [alistSet, hk, if_true] at hm
      rcases List.mem_cons.mp hm with h1 | h1
      · refine Or.inl ?_
        rw [h1, List.map_cons]
        exact List.mem_cons_self _ _
      · refine Or.inl ?_
        rw [List.map_cons]
        exact List.mem_cons_of_mem _ (List.mem_map_of_mem Prod.fst h1)
    · simp only [alistSet, hk, Bool.false_eq_true, if_false] at hm
      rcases List.mem_cons.mp hm with h1 | h1
      · refine Or.inl ?_
        rw [h1, List.map_cons]
        exact List.mem_cons_self _ _
      · rcases ih h1 with h2 | h2
        · refine Or.inl ?_
          rw [List.map_cons]
          exact List.mem_cons_of_mem _ h2
        · exact Or.inr h2

/-- The cache state after LRUCache.get only ever holds keys that were
already present or the queried key itself. -/
theorem lru_get_fst [BEq κ] (c : LRUCache κ α) (k : κ) (dflt : Option α)
    (kv : κ × Option α) (hm : kv ∈ ((c.get k dflt).2).cache) :
    kv.1 ∈ c.cache.map Prod.fst ∨ kv.1 = k := by
  unfold LRUCache.get at hm
  split at hm
  · simp only [] at hm
    rcases List.mem_append.mp hm with h1 | h1
    · exact Or.inl (List.mem_map_of_mem Prod.fst (List.mem_of_mem_filter h1))
    · simp at h1
      exact Or.inr (by rw [h1])
  · exact Or.inl (List.mem_map_of_mem Prod.fst hm)

/-- The cache state after LRUCache.set only ever holds keys that were
already present or the newly set key. -/
theorem lru_set_fst [BEq κ] (truthy : α → Bool) (c : LRUCache κ α) (k : κ)
    (v : Option α) (kv : κ × Option α)
    (hm : kv ∈ (LRUCache.set truthy c k v).cache) :
    kv.1 ∈ c.cache.map Prod.fst ∨ kv.1 = k := by
  have hnew : ∀ kv1 : κ × Option α,
      kv1 ∈ (match alistLookup c.cache k with
        | some _ => alistSet c.cache k v
        | Option.none => c.cache ++ [(k, v)]) →
      kv1.1 ∈ c.cache.map Prod.fst ∨ kv1.1 = k := by
    intro kv1 hm1
    cases hl : alistLookup c.cache k with
    | some w =>
      rw [hl] at hm1
      exact alistSet_fst_mem c.cache k v kv1 hm1
    | none =>
      rw [hl] at hm1
      rcases List.mem_append.mp hm1 with h1 | h1
      · exact Or.inl (List.mem_map_of_mem Prod.fst h1)
      · simp at h1
        exact Or.inr (by rw [h1])
  unfold LRUCache.set at hm
  split at hm
  · simp only [] at hm
    rcases List.mem_append.mp hm with h1 | h1
    · exact Or.inl (List.mem_map_of_mem Prod.fst (List.mem_of_mem_filter h1))
    · simp at h1
      exact Or.inr (by rw [h1])
  · dsimp only at hm
    split at hm
    · split at hm
      · exact hnew kv (List.mem_of_mem_drop hm)
      · exact hnew kv hm
    · exact hnew kv hm

/-- LRUCache.get keeps the all-keys-cacheable invariant of the query
cache: when every stored key is a real identity value, so is every key
after a get, whatever the queried key was (a None key cannot hit). -/
theorem lru_get_keys_some (c : LRUCache (Option HVal) (List Document))
    (k : Option HVal) (dflt : Option (List Document))
    (hkeys : ∀ kv ∈ c.cache, kv.1.isSome = true) :
    ∀ kv ∈ ((c.get k dflt).2).cache, kv.1.isSome = true := by
  intro kv hm
  cases hk : k with
  | none =>
    have hmiss : c.get Option.none dflt = (dflt, c) := by
      simp [LRUCache.get, LRUCache.getRaw,
        alistLookup_none_of_all_some _ hkeys]
    rw [hk, hmiss] at hm
    exact hkeys kv hm
  | some h =>
    rw [hk] at hm
    rcases lru_get_fst c (some h) dflt kv hm with h1 | h1
    · rcases List.mem_map.mp h1 with ⟨p, hp, hpe⟩
      rw [← hpe]
      exact hkeys p hp
    · rw [h1]
      rfl

/-- Table.search keeps the all-keys-cacheable invariant of the query
cache: only cacheable queries (with a real identity value) are ever
stored. -/
theorem search_preserves_some_keys (t : Table) (r1 : QueryInstance)
    (hkeys : ∀ kv ∈ t.queryCache.cache, kv.1.isSome = true) :
    ∀ kv ∈ ((t.search r1).2).queryCache.cache, kv.1.isSome = true := by
  have hget := lru_get_keys_some t.queryCache r1.hashval Option.none hkeys
  intro kv hm
  unfold Table.search at hm
  rcases hg : t.queryCache.get r1.hashval Option.none with ⟨cached, c1⟩
  rw [hg] at hm hget
  cases cached with
  | some docs =>
    simp only [] at hm
    exact hget kv hm
  | none =>
    simp only [] at hm
    cases hscan : scanDocs r1 t.readTable with
    | error e =>
      rw [hscan] at hm
      simp only [] at hm
      exact hget kv hm
    | ok docs =>
      rw [hscan] at hm
      simp only [] at hm
      by_cases hcc : r1.cacheable = true
      · rw [if_pos hcc] at hm
        simp only [] at hm
        rcases lru_set_fst docsTruthy c1 r1.hashval (some docs) kv hm
          with h1 | h1
        · rcases List.mem_map.mp h1 with ⟨p, hp, hpe⟩
          rw [← hpe]
          exact hget p hp
        · rw [h1]
          exact hcc
      · rw [if_neg hcc] at hm
        simp only [] at hm
        exact hget kv hm

/-- C7: a non-cacheable query instance (identity None, e.g. anything built
through a map-extended builder) is never stored in the query cache and
never hits it: under the invariant that every cached key is a real
identity value (search stores only cacheable queries), searching with a
non-cacheable query rescans the documents and returns the cache exactly as
it was; and combining a non-cacheable operand with AND, OR or NOT, or
generating any instance from a map-extended builder, again yields a
non-cacheable result. -/
theorem c7_noncacheable_never_cached (t : Table) (q r : QueryInstance)
    (hq : q.hashval = Option.none)
    (hkeys : ∀ kv ∈ t.queryCache.cache, kv.1.isSome = true) :
    (t.search q).1 = scanDocs q t.readTable ∧
    (t.search q).2.queryCache = t.queryCache ∧
    (q.andQ r).hashval = Option.none ∧
    (r.andQ q).hashval = Option.none ∧
    (q.orQ r).hashval = Option.none ∧
    (r.orQ q).hashval = Option.none ∧
    q.notQ.hashval = Option.none ∧
    (∀ (qb : QueryB) (fn : PyVal → Except PyExc PyVal)
        (test1 : PyVal → Except PyExc Bool) (hv : HVal),
      ((qb.mapQ fn).genInstance test1 hv).hashval = Option.none) ∧
    (∀ r2 : QueryInstance, ∀ kv ∈ ((t.search r2).2).queryCache.cache,
      kv.1.isSome = true) := by
  have hmiss : t.queryCache.get q.hashval Option.none = (Option.none, t.queryCache) := by
    rw [hq]
    simp [LRUCache.get, LRUCache.getRaw, alistLookup_none_of_all_some _ hkeys]
  have hsearch : t.search q = (scanDocs q t.readTable, t) := by
    unfold Table.search
    rw [hmiss]
    cases hscan : scanDocs q t.readTable with
    | error e => simp [hscan]
    | ok docs =>
      have hc : q.cacheable = false := by simp [QueryInstance.cacheable, hq]
      simp [hscan, hc]
  refine ⟨by rw [hsearch], by rw [hsearch], ?_, ?_, ?_, ?_, ?_, ?_, ?_⟩
  · cases hr : r.hashval <;> simp [QueryInstance.andQ, hq, hr]
  · cases hr : r.hashval <;> simp [QueryInstance.andQ, hq, hr]
  · cases hr : r.hashval <;> simp [QueryInstance.orQ, hq, hr]
  · cases hr : r.hashval <;> simp [QueryInstance.orQ, hq, hr]
  · simp [QueryInstance.notQ, hq]
  · intro qb fn test1 hv
    simp [QueryB.genInstance, QueryB.mapQ]
  · intro r2
    exact search_preserves_some_keys t r2 hkeys

/-- C7 witness: a map-built (non-cacheable) query searched against a table
whose cache holds one cacheable entry: the search scans and the cache is
untouched. -/
theorem c7_witness :
    ((Table.mk (some [("t", [("1", [("a", PyVal.int 1)])])]) "t"
        (LRUCache.mk (some 10) [(some HVal.noopH, some [])]) (some 2)).search
      ((queryRoot.mapQ (fun v => Except.ok v)).genInstance
        (fun _ => Except.ok true) HVal.noopH)).1
      = scanDocs ((queryRoot.mapQ (fun v => Except.ok v)).genInstance
          (fun _ => Except.ok true) HVal.noopH)
        (Table.mk (some [("t", [("1", [("a", PyVal.int 1)])])]) "t"
          (LRUCache.mk (some 10) [(some HVal.noopH, some [])]) (some 2)).readTable ∧
    ((Table.mk (some [("t", [("1", [("a", PyVal.int 1)])])]) "t"
        (LRUCache.mk (some 10) [(some HVal.noopH, some [])]) (some 2)).search
      ((queryRoot.mapQ (fun v => Except.ok v)).genInstance
        (fun _ => Except.ok true) HVal.noopH)).2.queryCache
      = LRUCache.mk (some 10) [(some HVal.noopH, some [])] := by
  have h := c7_noncacheable_never_cached
    (Table.mk (some [("t", [("1", [("a", PyVal.int 1)])])]) "t"
      (LRUCache.mk (some 10) [(some HVal.noopH, some [])]) (some 2))
    ((queryRoot.mapQ (fun v => Except.ok v)).genInstance
      (fun _ => Except.ok true) HVal.noopH)
    queryNoop rfl
    (by
      intro kv hm
      have h1 := List.mem_singleton.mp hm
      rw [h1]
      rfl)
  exact ⟨h.1, h.2.1⟩

/-- Indexing with a string key only ever raises KeyError or TypeError. -/
theorem pyGetItem_err (v : PyVal) (s : String) (e : PyExc)
    (h : pyGetItem v s = Except.error e) :
    e = PyExc.keyError ∨ e = PyExc.typeError := by
  cases v with
  | dict kvs =>
    rw [pyGetItem] at h
    cases hl : alistLookup kvs s with
    | none =>
      rw [hl] at h
      injection h with h1
      exact Or.inl h1.symm
    | some w =>
      rw [hl] at h
      cases h
  | none => exact Or.inr (by injection h with h1; exact h1.symm)
  | bool b => exact Or.inr (by injection h with h1; exact h1.symm)
  | int n => exact Or.inr (by injection h with h1; exact h1.symm)
  | str s1 => exact Or.inr (by injection h with h1; exact h1.symm)
  | list xs => exact Or.inr (by injection h with h1; exact h1.symm)

/-- Resolving a pure string path only ever raises KeyError or TypeError
(a missing key or a wrongly-typed intermediate value). -/
theorem resolve_str_err (path : List String) (v : PyVal) (e : PyExc)
    (h : resolvePath (path.map PathPart.field) v = Except.error e) :
    e = PyExc.keyError ∨ e = PyExc.typeError := by
  induction path generalizing v with
  | nil => simp [resolvePath] at h
  | cons s rest ih =>
    simp only [List.map_cons, resolvePath] at h
    cases hg : pyGetItem v s with
    | ok w =>
      rw [hg] at h
      exact ih w h
    | error e1 =>
      rw [hg] at h
      injection h with h1
      exact h1 ▸ pyGetItem_err v s e1 hg

/-- The runner returns False whenever resolution of a pure string path
fails: the two possible exceptions are exactly the caught ones. -/
theorem queryRunner_false_of_resolve_err (path : List String)
    (test1 : PyVal → Except PyExc Bool) (v : PyVal) (e : PyExc)
    (h : resolvePath (path.map PathPart.field) v = Except.error e) :
    queryRunner (path.map PathPart.field) test1 v = Except.ok false := by
  rcases resolve_str_err path v e h with h1 | h1 <;> subst h1 <;>
    simp [queryRunner, h]

/-- Python any() over a never-raising predicate never raises. -/
theorem anyM_total (f : PyVal → Except PyExc Bool)
    (hf : ∀ v, ∃ b, f v = Except.ok b) (xs : List PyVal) :
    ∃ b, anyM f xs = Except.ok b := by
  induction xs with
  | nil => exact ⟨false, rfl⟩
  | cons x rest ih =>
    obtain ⟨b, hb⟩ := hf x
    cases b with
    | true => exact ⟨true, by simp [anyM, hb]⟩
    | false =>
      obtain ⟨b2, hb2⟩ := ih
      exact ⟨b2, by simp [anyM, hb, hb2]⟩

/-- Python all() over a never-raising predicate never raises. -/
theorem allM_total (f : PyVal → Except PyExc Bool)
    (hf : ∀ v, ∃ b, f v = Except.ok b) (xs : List PyVal) :
    ∃ b, allM f xs = Except.ok b := by
  induction xs with
  | nil => exact ⟨true, rfl⟩
  | cons x rest ih =>
    obtain ⟨b, hb⟩ := hf x
    cases b with
    | false => exact ⟨false, by simp [allM, hb]⟩
    | true =>
      obtain ⟨b2, hb2⟩ := ih
      exact ⟨b2, by simp [allM, hb, hb2]⟩

/-- The runner never raises when its per-value test never raises and the
path is a pure string path. -/
theorem queryRunner_total (path : List String)
    (test1 : PyVal → Except PyExc Bool)
    (ht : ∀ v, ∃ b, test1 v = Except.ok b) (v : PyVal) :
    ∃ b, queryRunner (path.map PathPart.field) test1 v = Except.ok b := by
  cases hr : resolvePath (path.map PathPart.field) v with
  | ok w =>
    obtain ⟨b, hb⟩ := ht w
    exact ⟨b, by simp [queryRunner, hr, hb]⟩
  | error e => exact ⟨false, queryRunner_false_of_resolve_err path test1 v e hr⟩

/-- Evaluation of the raise-free builder fragment is total. -/
theorem builtQuery_total : ∀ (b : BuiltQuery) (v : PyVal),
    ∃ r, b.toInstance.test v = Except.ok r
  | BuiltQuery.eqB p0 ps rhs, v =>
    queryRunner_total (p0 :: ps) (eqTestFun rhs) (fun _ => ⟨_, rfl⟩) v
  | BuiltQuery.neB p0 ps rhs, v =>
    queryRunner_total (p0 :: ps) (neTestFun rhs) (fun _ => ⟨_, rfl⟩) v
  | BuiltQuery.existsB p0 ps, v =>
    queryRunner_total (p0 :: ps) existsTestFun (fun _ => ⟨true, rfl⟩) v
  | BuiltQuery.matchesB p0 ps regex matcher, v =>
    queryRunner_total (p0 :: ps) (regexTestFun matcher)
      (fun w => by cases w <;> exact ⟨_, rfl⟩) v
  | BuiltQuery.searchB p0 ps regex matcher, v =>
    queryRunner_total (p0 :: ps) (regexTestFun matcher)
      (fun w => by cases w <;> exact ⟨_, rfl⟩) v
  | BuiltQuery.oneOfB p0 ps items, v =>
    queryRunner_total (p0 :: ps) (oneOfTestFun items) (fun _ => ⟨_, rfl⟩) v
  | BuiltQuery.anyListB p0 ps items, v =>
    queryRunner_total (p0 :: ps) (anyListTestFun items)
      (fun w => by
        cases hi : pyIter w with
        | some es =>
          exact ⟨es.any (fun e => items.any (fun i => pyEq e i)),
            by simp [anyListTestFun, hi]⟩
        | none => exact ⟨false, by simp [anyListTestFun, hi]⟩) v
  | BuiltQuery.anyQB p0 ps sub, v =>
    queryRunner_total (p0 :: ps) (anySubTestFun sub.toInstance)
      (fun w => by
        cases hi : pyIter w with
        | some es =>
          obtain ⟨b, hb⟩ := anyM_total sub.toInstance.test
            (fun u => builtQuery_total sub u) es
          exact ⟨b, by simp [anySubTestFun, hi, hb]⟩
        | none => exact ⟨false, by simp [anySubTestFun, hi]⟩) v
  | BuiltQuery.allQB p0 ps sub, v =>
    queryRunner_total (p0 :: ps) (allSubTestFun sub.toInstance)
      (fun w => by
        cases hi : pyIter w with
        | some es =>
          obtain ⟨b, hb⟩ := allM_total sub.toInstance.test
            (fun u => builtQuery_total sub u) es
          exact ⟨b, by simp [allSubTestFun, hi, hb]⟩
        | none => exact ⟨false, by simp [allSubTestFun, hi]⟩) v
  | BuiltQuery.andB a b, v => by
    obtain ⟨ra, ha⟩ := builtQuery_total a v
    obtain ⟨rb, hb⟩ := builtQuery_total b v
    cases ra with
    | true =>
      exact ⟨rb, by simp [BuiltQuery.toInstance, QueryInstance.andQ, ha, hb]⟩
    | false =>
      exact ⟨false, by simp [BuiltQuery.toInstance, QueryInstance.andQ, ha]⟩
  | BuiltQuery.orB a b, v => by
    obtain ⟨ra, ha⟩ := builtQuery_total a v
    obtain ⟨rb, hb⟩ := builtQuery_total b v
    cases ra with
    | true =>
      exact ⟨true, by simp [BuiltQuery.toInstance, QueryInstance.orQ, ha]⟩
    | false =>
      exact ⟨rb, by simp [BuiltQuery.toInstance, QueryInstance.orQ, ha, hb]⟩
  | BuiltQuery.notB a, v => by
    obtain ⟨ra, ha⟩ := builtQuery_total a v
    exact ⟨!ra, by simp [BuiltQuery.toInstance, QueryInstance.notQ, ha]⟩
  | BuiltQuery.noopB, v => ⟨true, rfl⟩

/-- C1 (amended): evaluation never raises on the raise-free builder
fragment: every query built along string paths from ==, !=, exists,
matches, search, one_of, any (list or query condition) and all (query
condition), combined with AND, OR and NOT, returns true or false on every
document, and whenever resolution of a string path fails (missing key or
wrongly-typed value, i.e. KeyError or TypeError) the runner returns false.
The unrestricted claim is false: a test() function or a map() transform
that raises anything but KeyError/TypeError propagates its exception (see
the counterexample), and the membership tests of all(list) and fragment()
can raise TypeError when the resolved value is a string or dict. -/
theorem c1_never_raises_amended :
    (∀ (b : BuiltQuery) (v : PyVal), ∃ r, b.toInstance.test v = Except.ok r) ∧
    (∀ (path : List String) (test1 : PyVal → Except PyExc Bool) (v : PyVal)
        (e : PyExc),
      resolvePath (path.map PathPart.field) v = Except.error e →
      queryRunner (path.map PathPart.field) test1 v = Except.ok false) :=
  ⟨builtQuery_total,
   fun path test1 v e h => queryRunner_false_of_resolve_err path test1 v e h⟩

/-- C1 counterexample: a query built through the builder with test() and a
user function that raises ValueError propagates the exception: with
q = Query().f.test(fn), evaluating q({'f': 1}) raises instead of
returning a boolean, because the runner only guards path resolution and
only against KeyError and TypeError. -/
theorem c1_counterexample :
    (match (whereQ "f").testQuery 0 (fun _ => Except.error PyExc.valueError)
        (PyVal.list []) with
     | Except.ok q => q.test (PyVal.dict [("f", PyVal.int 1)])
     | Except.error e => Except.error e)
      = Except.error PyExc.valueError := by rfl

/-- C1 witness: the amended theorem applied at a concrete query and
document, and at a concrete failing path resolution. -/
theorem c1_witness :
    (∃ r, (BuiltQuery.eqB "f" [] (PyVal.int 1)).toInstance.test
      (PyVal.dict [("g", PyVal.int 2)]) = Except.ok r) ∧
    queryRunner (["f"].map PathPart.field) (eqTestFun (PyVal.int 1))
      (PyVal.dict []) = Except.ok false :=
  ⟨c1_never_raises_amended.1 (BuiltQuery.eqB "f" [] (PyVal.int 1))
      (PyVal.dict [("g", PyVal.int 2)]),
   c1_never_raises_amended.2 ["f"] (eqTestFun (PyVal.int 1)) (PyVal.dict [])
     PyExc.keyError (by rfl)⟩

/-
Cache invalidation: every successful pass through _update_table ends by
clearing the query cache, and a search against an empty cache always
scans.
-/

theorem updateTable_clears_cache {α : Type} (t : Table)
    (u : NatTable → Table → (Except PyExc (NatTable × α)) × Table)
    (a : α) (t1 : Table) (h : t.updateTable u = (Except.ok a, t1)) :
    t1.queryCache.cache = [] := by
  unfold Table.updateTable at h
  split at h
  all_goals dsimp only at h
  all_goals split at h
  all_goals
    first
      | (have h2 := congrArg Prod.snd h
         simp only [] at h2
         rw [← h2]
         rfl)
      | exact absurd (congrArg Prod.fst h) (by simp)

theorem updateTable_snd_cache {β : Type} (t0 : Table)
    (u : NatTable → Table → (Except PyExc (NatTable × β)) × Table) (x : β)
    (hx : (t0.updateTable u).1 = Except.ok x) :
    (t0.updateTable u).2.queryCache.cache = [] :=
  updateTable_clears_cache t0 u x ((t0.updateTable u).2) (by rw [← hx])

theorem except_map_ok {β γ : Type} (r : Except PyExc β) (f : β → γ) (y : γ)
    (h : r.map f = Except.ok y) : ∃ x, r = Except.ok x := by
  cases r with
  | error e => simp [Except.map] at h
  | ok x => exact ⟨x, rfl⟩

theorem pair_map_ok {β γ : Type} (r : Except PyExc β) (f : β → γ)
    (t2 t1 : Table) (y : γ) (h : (r.map f, t2) = (Except.ok y, t1)) :
    (∃ x, r = Except.ok x) ∧ t2 = t1 :=
  ⟨except_map_ok r f y (congrArg Prod.fst h), congrArg Prod.snd h⟩

theorem insert_withId_fst (t : Table) (i : Nat) (d : Doc) :
    (t.insert (InsDoc.withId i d)).1 =
      (({ t with nextId := Option.none }).updateTable (insertUpdater i d)).1.map
        (fun _ => i) := rfl

theorem insert_withId_snd (t : Table) (i : Nat) (d : Doc) :
    (t.insert (InsDoc.withId i d)).2 =
      (({ t with nextId := Option.none }).updateTable (insertUpdater i d)).2 := rfl

theorem insert_plain_fst (t : Table) (d : Doc) :
    (t.insert (InsDoc.plain d)).1 =
      ((t.getNextId).2.updateTable (insertUpdater (t.getNextId).1 d)).1.map
        (fun _ => (t.getNextId).1) := rfl

theorem insert_plain_snd (t : Table) (d : Doc) :
    (t.insert (InsDoc.plain d)).2 =
      ((t.getNextId).2.updateTable (insertUpdater (t.getNextId).1 d)).2 := rfl

theorem updateByIds_fst (t : Table) (f : UpdFields) (docIds : List Nat) :
    (t.updateByIds f docIds).1 =
      (t.updateTable (fun table s =>
        match updateByIdsGo f docIds table with
        | Except.ok table1 => (Except.ok (table1, ()), s)
        | Except.error e => (Except.error e, s))).1.map (fun _ => docIds) := rfl

theorem updateByIds_snd (t : Table) (f : UpdFields) (docIds : List Nat) :
    (t.updateByIds f docIds).2 =
      (t.updateTable (fun table s =>
        match updateByIdsGo f docIds table with
        | Except.ok table1 => (Except.ok (table1, ()), s)
        | Except.error e => (Except.error e, s))).2 := rfl

theorem removeByIds_fst (t : Table) (docIds : List Nat) :
    (t.removeByIds docIds).1 =
      (t.updateTable (fun table s =>
        match removeByIdsGo docIds table with
        | Except.ok table1 => (Except.ok (table1, ()), s)
        | Except.error e => (Except.error e, s))).1.map (fun _ => docIds) := rfl

theorem removeByIds_snd (t : Table) (docIds : List Nat) :
    (t.removeByIds docIds).2 =
      (t.updateTable (fun table s =>
        match removeByIdsGo docIds table with
        | Except.ok table1 => (Except.ok (table1, ()), s)
        | Except.error e => (Except.error e, s))).2 := rfl

theorem updateByCond_eq (t : Table) (f : UpdFields) (c : QueryInstance) :
    t.updateByCond f c = t.updateTable (fun table s =>
      (updateByCondGo f c (table.map Prod.fst) table [], s)) := rfl

theorem updateAll_eq (t : Table) (f : UpdFields) :
    t.updateAll f = t.updateTable (fun table s =>
      (updateAllGo f (table.map Prod.fst) table [], s)) := rfl

theorem removeByCond_eq (t : Table) (c : QueryInstance) :
    t.removeByCond c = t.updateTable (fun table s =>
      (removeByCondGo c (table.map Prod.fst) table [], s)) := rfl

theorem insertMultiple_eq (t : Table) (ds : List InsDoc) :
    t.insertMultiple ds =
      t.updateTable (fun table s => insertManyGo ds table s []) := rfl

theorem truncate_eq (t : Table) :
    t.truncate =
      { (t.updateTable (fun _table s => (Except.ok (([] : NatTable), ()), s))).2
          with nextId := Option.none } := rfl

theorem truncate_cache (t : Table) : t.truncate.queryCache.cache = [] := by
  rw [truncate_eq]
  exact updateTable_snd_cache t _ () rfl

/-- A search against an empty query cache always misses and scans the
current table contents. -/
theorem search_empty_cache (t : Table) (q : QueryInstance)
    (hc : t.queryCache.cache = []) :
    (t.search q).1 = scanDocs q t.readTable := by
  have hmiss : t.queryCache.get q.hashval Option.none
      = (Option.none, t.queryCache) := by
    simp [LRUCache.get, LRUCache.getRaw, hc, alistLookup]
  unfold Table.search
  rw [hmiss]
  cases hscan : scanDocs q t.readTable with
  | error e => simp [hscan]
  | ok docs =>
    by_cases hcc : q.cacheable = true <;> simp [hscan, hcc]

/-- C2: every mutating operation that completes writes the updated state
back and then clears the entire query cache, so the next search with any
query (in particular one whose result was cached before the write) misses
the cache and rescans the table as it stands after the write; a stale
cached result is never returned. -/
theorem c2_write_invalidates_cache (op : MutOp) (t t1 : Table) (u : Unit)
    (h : applyMut op t = (Except.ok u, t1)) (q : QueryInstance) :
    t1.queryCache.cache = [] ∧ (t1.search q).1 = scanDocs q t1.readTable := by
  have hcache : t1.queryCache.cache = [] := by
    cases op with
    | insertOp d =>
      obtain ⟨⟨x, hx⟩, ht⟩ := pair_map_ok ((t.insert d).1) (fun _ => ())
        ((t.insert d).2) t1 u h
      cases d with
      | withId i body =>
        rw [insert_withId_fst] at hx
        obtain ⟨x2, hx2⟩ := except_map_ok _ _ _ hx
        rw [insert_withId_snd] at ht
        exact ht ▸ updateTable_snd_cache _ _ x2 hx2
      | plain body =>
        rw [insert_plain_fst] at hx
        obtain ⟨x2, hx2⟩ := except_map_ok _ _ _ hx
        rw [insert_plain_snd] at ht
        exact ht ▸ updateTable_snd_cache _ _ x2 hx2
    | insertMultipleOp ds =>
      obtain ⟨⟨x, hx⟩, ht⟩ := pair_map_ok ((t.insertMultiple ds).1) (fun _ => ())
        ((t.insertMultiple ds).2) t1 u h
      rw [insertMultiple_eq] at hx ht
      exact ht ▸ updateTable_snd_cache _ _ x hx
    | updateByIdsOp fields docIds =>
      obtain ⟨⟨x, hx⟩, ht⟩ := pair_map_ok ((t.updateByIds fields docIds).1)
        (fun _ => ()) ((t.updateByIds fields docIds).2) t1 u h
      rw [updateByIds_fst] at hx
      obtain ⟨x2, hx2⟩ := except_map_ok _ _ _ hx
      rw [updateByIds_snd] at ht
      exact ht ▸ updateTable_snd_cache _ _ x2 hx2
    | updateByCondOp fields cond =>
      obtain ⟨⟨x, hx⟩, ht⟩ := pair_map_ok ((t.updateByCond fields cond).1)
        (fun _ => ()) ((t.updateByCond fields cond).2) t1 u h
      rw [updateByCond_eq] at hx ht
      exact ht ▸ updateTable_snd_cache _ _ x hx
    | updateAllOp fields =>
      obtain ⟨⟨x, hx⟩, ht⟩ := pair_map_ok ((t.updateAll fields).1)
        (fun _ => ()) ((t.updateAll fields).2) t1 u h
      rw [updateAll_eq] at hx ht
      exact ht ▸ updateTable_snd_cache _ _ x hx
    | removeByIdsOp docIds =>
      obtain ⟨⟨x, hx⟩, ht⟩ := pair_map_ok ((t.removeByIds docIds).1)
        (fun _ => ()) ((t.removeByIds docIds).2) t1 u h
      rw [removeByIds_fst] at hx
      obtain ⟨x2, hx2⟩ := except_map_ok _ _ _ hx
      rw [removeByIds_snd] at ht
      exact ht ▸ updateTable_snd_cache _ _ x2 hx2
    | removeByCondOp cond =>
      obtain ⟨⟨x, hx⟩, ht⟩ := pair_map_ok ((t.removeByCond cond).1)
        (fun _ => ()) ((t.removeByCond cond).2) t1 u h
      rw [removeByCond_eq] at hx ht
      exact ht ▸ updateTable_snd_cache _ _ x hx
    | truncateOp =>
      have ht : t.truncate = t1 := congrArg Prod.snd h
      exact ht ▸ truncate_cache t
  exact ⟨hcache, search_empty_cache t1 q hcache⟩

/-- C2 witness: a concrete insert against a table holding a cached search
result clears the cache and makes the next search scan. -/
theorem c2_witness :
    (applyMut (MutOp.insertOp (InsDoc.plain [("a", PyVal.int 1)]))
        (Table.mk (some [("t", [])]) "t"
          (LRUCache.mk (some 10) [(some HVal.noopH, some [])])
          Option.none)).2.queryCache.cache = [] ∧
    ((applyMut (MutOp.insertOp (InsDoc.plain [("a", PyVal.int 1)]))
        (Table.mk (some [("t", [])]) "t"
          (LRUCache.mk (some 10) [(some HVal.noopH, some [])])
          Option.none)).2.search queryNoop).1
      = scanDocs queryNoop
        (applyMut (MutOp.insertOp (InsDoc.plain [("a", PyVal.int 1)]))
          (Table.mk (some [("t", [])]) "t"
            (LRUCache.mk (some 10) [(some HVal.noopH, some [])])
            Option.none)).2.readTable :=
  c2_write_invalidates_cache
    (MutOp.insertOp (InsDoc.plain [("a", PyVal.int 1)]))
    (Table.mk (some [("t", [])]) "t"
      (LRUCache.mk (some 10) [(some HVal.noopH, some [])]) Option.none)
    (applyMut (MutOp.insertOp (InsDoc.plain [("a", PyVal.int 1)]))
      (Table.mk (some [("t", [])]) "t"
        (LRUCache.mk (some 10) [(some HVal.noopH, some [])]) Option.none)).2
    () (by rfl) queryNoop

/-
Association-list and key-conversion lemmas used by the ID-allocation and
round-trip claims.
-/

theorem alistLookup_set_self [BEq κ] [LawfulBEq κ] (l : List (κ × α))
    (k : κ) (v : α) : alistLookup (alistSet l k v) k = some v := by
  induction l with
  | nil => simp [alistSet, alistLookup]
  | cons p rest ih =>
    obtain ⟨k1, w⟩ := p
    by_cases hk : (k1 == k) = true
    · simp [alistSet, alistLookup, hk]
    · simp only [alistSet, alistLookup, hk, Bool.false_eq_true, if_false]
      exact ih

theorem alistLookup_eq_none_of_not_mem [BEq κ] [LawfulBEq κ]
    (l : List (κ × α)) (k : κ) (h : k ∉ l.map Prod.fst) :
    alistLookup l k = Option.none := by
  induction l with
  | nil => rfl
  | cons p rest ih =>
    obtain ⟨k1, w⟩ := p
    simp only [List.map_cons, List.mem_cons] at h
    push_neg at h
    have hk : (k1 == k) = false := by
      rw [beq_eq_false_iff_ne]
      exact fun he => h.1 he.symm
    simp only [alistLookup, hk, Bool.false_eq_true, if_false]
    exact ih h.2

theorem not_mem_of_alistLookup_eq_none [BEq κ] [LawfulBEq κ]
    (l : List (κ × α)) (k : κ) (h : alistLookup l k = Option.none) :
    k ∉ l.map Prod.fst := by
  induction l with
  | nil => simp
  | cons p rest ih =>
    obtain ⟨k1, w⟩ := p
    by_cases hk : (k1 == k) = true
    · simp [alistLookup, hk] at h
    · simp only [alistLookup, hk, Bool.false_eq_true, if_false] at h
      simp only [List.map_cons, List.mem_cons]
      push_neg
      exact ⟨fun he => (by simp [he.symm] at hk), ih h⟩

theorem alistSet_of_lookup_none [BEq κ] [LawfulBEq κ] (l : List (κ × α))
    (k : κ) (v : α) (h : alistLookup l k = Option.none) :
    alistSet l k v = l ++ [(k, v)] := by
  induction l with
  | nil => rfl
  | cons p rest ih =>
    obtain ⟨k1, w⟩ := p
    by_cases hk : (k1 == k) = true
    · simp [alistLookup, hk] at h
    · simp only [alistLookup, hk, Bool.false_eq_true, if_false] at h
      simp [alistSet, hk, ih h]

theorem alistLookup_set_isSome_mono [BEq κ] (l : List (κ × α))
    (k1 : κ) (v : α) (k : κ) (h : (alistLookup l k).isSome = true) :
    (alistLookup (alistSet l k1 v) k).isSome = true := by
  induction l with
  | nil => simp [alistLookup] at h
  | cons p rest ih =>
    obtain ⟨k2, w⟩ := p
    by_cases h21 : (k2 == k1) = true
    · by_cases h2k : (k2 == k) = true
      · simp [alistSet, alistLookup, h21, h2k]
      · simp only [alistLookup, h2k, Bool.false_eq_true, if_false] at h
        simp only [alistSet, alistLookup, h21, if_true, h2k,
          Bool.false_eq_true, if_false]
        exact h
    · by_cases h2k : (k2 == k) = true
      · simp [alistSet, alistLookup, h21, h2k]
      · simp only [alistLookup, h2k, Bool.false_eq_true, if_false] at h
        simp only [alistSet, alistLookup, h21, h2k, Bool.false_eq_true,
          if_false]
        exact ih h

theorem alistLookup_set_ne [BEq κ] [LawfulBEq κ] (l : List (κ × α)) (k1 : κ)
    (v : α) (k : κ) (hne : (k1 == k) = false) :
    alistLookup (alistSet l k1 v) k = alistLookup l k := by
  induction l with
  | nil => simp [alistSet, alistLookup, hne]
  | cons p rest ih =>
    obtain ⟨k2, w⟩ := p
    by_cases h21 : (k2 == k1) = true
    · have hk2 : k2 = k1 := eq_of_beq h21
      subst hk2
      simp [alistSet, alistLookup, h21, hne]
    · simp only [alistSet, h21, Bool.false_eq_true, if_false]
      by_cases h2k : (k2 == k) = true
      · simp [alistLookup, h2k]
      · simp only [alistLookup, h2k, Bool.false_eq_true, if_false]
        exact ih

theorem alistSet_map_fst_of_lookup_some [BEq κ] (l : List (κ × α))
    (k : κ) (v w : α) (h : alistLookup l k = some w) :
    (alistSet l k v).map Prod.fst = l.map Prod.fst := by
  induction l with
  | nil => simp [alistLookup] at h
  | cons p rest ih =>
    obtain ⟨k1, w1⟩ := p
    by_cases hk : (k1 == k) = true
    · simp [alistSet, hk]
    · simp only [alistLookup, hk, Bool.false_eq_true, if_false] at h
      simp [alistSet, hk, ih h]

theorem alistLookup_append [BEq κ] (l1 l2 : List (κ × α)) (k : κ) :
    alistLookup (l1 ++ l2) k =
      match alistLookup l1 k with
      | some v => some v
      | Option.none => alistLookup l2 k := by
  induction l1 with
  | nil => simp [alistLookup]
  | cons p rest ih =>
    obtain ⟨k1, w⟩ := p
    by_cases hk : (k1 == k) = true
    · simp [alistLookup, hk]
    · simp only [List.cons_append, alistLookup, hk, Bool.false_eq_true,
        if_false]
      exact ih

theorem mem_fst_of_alistLookup_isSome [BEq κ] [LawfulBEq κ]
    (l : List (κ × α)) (k : κ) (h : (alistLookup l k).isSome = true) :
    k ∈ l.map Prod.fst := by
  by_contra hmem
  rw [alistLookup_eq_none_of_not_mem l k hmem] at h
  simp at h

theorem foldl_set_isSome_mono [BEq κ] {β : Type} (key : β → κ) (val : β → α)
    (l : List β) (acc : List (κ × α)) (k : κ)
    (h : (alistLookup acc k).isSome = true) :
    (alistLookup (l.foldl (fun a b => alistSet a (key b) (val b)) acc)
      k).isSome = true := by
  induction l generalizing acc with
  | nil => exact h
  | cons b rest ih =>
    simp only [List.foldl_cons]
    exact ih _ (alistLookup_set_isSome_mono acc (key b) (val b) k h)

theorem foldl_set_mem_isSome [BEq κ] [LawfulBEq κ] {β : Type}
    (key : β → κ) (val : β → α) (l : List β) (acc : List (κ × α))
    (b : β) (hb : b ∈ l) :
    (alistLookup (l.foldl (fun a b1 => alistSet a (key b1) (val b1)) acc)
      (key b)).isSome = true := by
  induction l generalizing acc with
  | nil => cases hb
  | cons x rest ih =>
    simp only [List.foldl_cons]
    rcases List.mem_cons.mp hb with he | hm
    · subst he
      exact foldl_set_isSome_mono key val rest _ (key b)
        (by rw [alistLookup_set_self]; rfl)
    · exact ih _ hm

theorem foldl_set_isSome_inv [BEq κ] [LawfulBEq κ] {β : Type}
    (key : β → κ) (val : β → α) (l : List β) (acc : List (κ × α)) (k : κ)
    (h : (alistLookup (l.foldl (fun a b => alistSet a (key b) (val b)) acc)
      k).isSome = true) :
    (alistLookup acc k).isSome = true ∨ k ∈ l.map key := by
  induction l generalizing acc with
  | nil => exact Or.inl h
  | cons b rest ih =>
    simp only [List.foldl_cons] at h
    rcases ih _ h with h1 | h1
    · by_cases hkb : (key b == k) = true
      · have : key b = k := eq_of_beq hkb
        exact Or.inr (by simp [List.map_cons, ← this])
      · rw [alistLookup_set_ne acc (key b) (val b) k
          (by simp only [Bool.not_eq_true] at hkb; exact hkb)] at h1
        exact Or.inl h1
    · exact Or.inr (List.mem_cons_of_mem _ h1)

theorem foldl_set_keys_nodup [BEq κ] [LawfulBEq κ] {β : Type}
    (key : β → κ) (val : β → α) (l : List β) (acc : List (κ × α))
    (hnd : (acc.map Prod.fst).Nodup) :
    ((l.foldl (fun a b => alistSet a (key b) (val b)) acc).map
      Prod.fst).Nodup := by
  induction l generalizing acc with
  | nil => exact hnd
  | cons b rest ih =>
    simp only [List.foldl_cons]
    cases hl : alistLookup acc (key b) with
    | some w =>
      refine ih _ ?_
      rw [alistSet_map_fst_of_lookup_some acc (key b) (val b) w hl]
      exact hnd
    | none =>
      refine ih _ ?_
      rw [alistSet_of_lookup_none acc (key b) (val b) hl]
      have hmem := not_mem_of_alistLookup_eq_none acc (key b) hl
      simp [List.nodup_append, hnd, hmem]

theorem foldl_set_eq_append [BEq κ] [LawfulBEq κ] {β : Type}
    (key : β → κ) (val : β → α) :
    ∀ (l : List β) (acc : List (κ × α)),
    (l.map key).Nodup → (∀ b ∈ l, alistLookup acc (key b) = Option.none) →
    l.foldl (fun a b => alistSet a (key b) (val b)) acc
      = acc ++ l.map (fun b => (key b, val b))
  | [], acc, _, _ => by simp
  | b :: rest, acc, hnd, hdisj => by
    simp only [List.foldl_cons, List.map_cons]
    rw [alistSet_of_lookup_none acc (key b) (val b)
      (hdisj b (List.mem_cons_self _ _))]
    have hnd1 : (rest.map key).Nodup := (List.nodup_cons.mp (by simpa using hnd)).2
    have hbmem : key b ∉ rest.map key := (List.nodup_cons.mp (by simpa using hnd)).1
    rw [foldl_set_eq_append key val rest (acc ++ [(key b, val b)]) hnd1 ?_]
    · simp
    · intro b1 hb1
      rw [alistLookup_append]
      rw [hdisj b1 (List.mem_cons_of_mem _ hb1)]
      have hne : (key b == key b1) = false := by
        rw [beq_eq_false_iff_ne]
        intro he
        exact hbmem (he ▸ List.mem_map_of_mem key hb1)
      simp [alistLookup, hne]

theorem le_foldl_max (l : List Nat) (a : Nat) : a ≤ l.foldl Nat.max a := by
  induction l generalizing a with
  | nil => exact Nat.le_refl a
  | cons x rest ih =>
    simp only [List.foldl_cons]
    exact Nat.le_trans (Nat.le_max_left a x) (ih (Nat.max a x))

theorem mem_le_foldl_max (l : List Nat) (x : Nat) (hx : x ∈ l) (a : Nat) :
    x ≤ l.foldl Nat.max a := by
  induction l generalizing a with
  | nil => cases hx
  | cons y rest ih =>
    simp only [List.foldl_cons]
    rcases List.mem_cons.mp hx with he | hm
    · subst he
      exact Nat.le_trans (Nat.le_max_right a x) (le_foldl_max rest (Nat.max a x))
    · exact ih hm (Nat.max a y)

theorem mem_of_alistLookup_eq_some [BEq κ] [LawfulBEq κ] (l : List (κ × α))
    (k : κ) (v : α) (h : alistLookup l k = some v) : (k, v) ∈ l := by
  induction l with
  | nil => simp [alistLookup] at h
  | cons p rest ih =>
    obtain ⟨k1, w⟩ := p
    by_cases hk : (k1 == k) = true
    · have he : k1 = k := eq_of_beq hk
      simp only [alistLookup, hk, if_true] at h
      injection h with h1
      subst he h1
      exact List.mem_cons_self _ _
    · simp only [alistLookup, hk, Bool.false_eq_true, if_false] at h
      exact List.mem_cons_of_mem _ (ih h)

/-- The read-modify-write equation of _update_table, phrased through
_read_table: the updater sees the converted current table, and on success
the stringified result replaces this table inside the whole read state. -/
theorem updateTable_eq (t : Table) {α : Type}
    (u : NatTable → Table → (Except PyExc (NatTable × α)) × Table) :
    t.updateTable u =
      match u (convertTable t.readTable) t with
      | (Except.error e, t1) => (Except.error e, t1)
      | (Except.ok (table1, a), t1) =>
        (Except.ok a,
          { t1 with
              storage := some (alistSet t.tablesState t.name
                (stringifyTable table1)),
              queryCache := t1.queryCache.clear }) := by
  cases hs : t.storage with
  | none =>
    show Table.updateTable t u = _
    unfold Table.updateTable Table.readTable Table.tablesState
    rw [hs]
    rfl
  | some ts =>
    show Table.updateTable t u = _
    unfold Table.updateTable Table.readTable Table.tablesState
    rw [hs]
    rfl

theorem getNextId_readTable (t : Table) :
    (t.getNextId).2.readTable = t.readTable := by
  unfold Table.getNextId
  cases hn : t.nextId with
  | some n => rfl
  | none =>
    dsimp only
    split
    · rfl
    · rfl

/-- A successful plain insert: the allocated ID was free in the converted
table, and afterwards the raw table read back is the stringification of
the converted table extended at that ID. -/
theorem insert_plain_ok (t t1 : Table) (r : Nat) (d : Doc)
    (h : t.insert (InsDoc.plain d) = (Except.ok r, t1)) :
    alistLookup (convertTable t.readTable) r = Option.none ∧
    t1.readTable = stringifyTable (alistSet (convertTable t.readTable) r d) ∧
    t1.name = t.name := by
  have hx : (((t.getNextId).2.updateTable
      (insertUpdater (t.getNextId).1 d)).1).map (fun _ => (t.getNextId).1)
        = Except.ok r := by
    rw [← insert_plain_fst]
    exact congrArg Prod.fst h
  have ht : ((t.getNextId).2.updateTable
      (insertUpdater (t.getNextId).1 d)).2 = t1 := by
    rw [← insert_plain_snd]
    exact congrArg Prod.snd h
  rw [updateTable_eq] at hx ht
  rw [getNextId_readTable] at hx ht
  cases hlook : alistLookup (convertTable t.readTable) (t.getNextId).1 with
  | some w =>
    rw [show insertUpdater (t.getNextId).1 d (convertTable t.readTable)
          (t.getNextId).2
        = (Except.error PyExc.valueError, (t.getNextId).2) from by
      simp [insertUpdater, hlook]] at hx
    simp [Except.map] at hx
  | none =>
    rw [show insertUpdater (t.getNextId).1 d (convertTable t.readTable)
          (t.getNextId).2
        = (Except.ok (alistSet (convertTable t.readTable) (t.getNextId).1 d,
            ()), (t.getNextId).2) from by
      simp [insertUpdater, hlook]] at hx ht
    have hr : r = (t.getNextId).1 := by
      simp [Except.map] at hx
      exact hx.symm
    subst hr
    refine ⟨hlook, ?_, ?_⟩
    · rw [← ht]
      show (match alistLookup
          (alistSet (t.getNextId).2.tablesState (t.getNextId).2.name
            (stringifyTable (alistSet (convertTable t.readTable)
              (t.getNextId).1 d)))
          (t.getNextId).2.name with
        | some table => table
        | Option.none => []) = _
      rw [alistLookup_set_self]
    · rw [← ht]
      show (t.getNextId).2.name = t.name
      unfold Table.getNextId
      cases hn : t.nextId with
      | some n => rfl
      | none =>
        dsimp only
        split
        · rfl
        · rfl

/-- A successful explicit-ID insert: the ID was free, the raw table read
back afterwards is the stringification of the converted table extended at
that ID, and the remembered next-ID counter is forgotten. -/
theorem insert_withId_ok (t t1 : Table) (i r : Nat) (d : Doc)
    (h : t.insert (InsDoc.withId i d) = (Except.ok r, t1)) :
    alistLookup (convertTable t.readTable) i = Option.none ∧
    t1.readTable = stringifyTable (alistSet (convertTable t.readTable) i d) ∧
    t1.nextId = Option.none ∧ t1.name = t.name := by
  have hra : ({ t with nextId := Option.none } : Table).readTable
      = t.readTable := rfl
  have hx : ((({ t with nextId := Option.none } : Table).updateTable
      (insertUpdater i d)).1).map (fun _ => i) = Except.ok r := by
    rw [← insert_withId_fst]
    exact congrArg Prod.fst h
  have ht : (({ t with nextId := Option.none } : Table).updateTable
      (insertUpdater i d)).2 = t1 := by
    rw [← insert_withId_snd]
    exact congrArg Prod.snd h
  rw [updateTable_eq] at hx ht
  rw [hra] at hx ht
  cases hlook : alistLookup (convertTable t.readTable) i with
  | some w =>
    rw [show insertUpdater i d (convertTable t.readTable)
          ({ t with nextId := Option.none } : Table)
        = (Except.error PyExc.valueError,
            ({ t with nextId := Option.none } : Table)) from by
      simp [insertUpdater, hlook]] at hx
    simp [Except.map] at hx
  | none =>
    rw [show insertUpdater i d (convertTable t.readTable)
          ({ t with nextId := Option.none } : Table)
        = (Except.ok (alistSet (convertTable t.readTable) i d, ()),
            ({ t with nextId := Option.none } : Table)) from by
      simp [insertUpdater, hlook]] at hx ht
    refine ⟨rfl, ?_, ?_, ?_⟩
    · rw [← ht]
      show (match alistLookup
          (alistSet ({ t with nextId := Option.none } : Table).tablesState
            ({ t with nextId := Option.none } : Table).name
            (stringifyTable (alistSet (convertTable t.readTable) i d)))
          ({ t with nextId := Option.none } : Table).name with
        | some table => table
        | Option.none => []) = _
      rw [alistLookup_set_self]
    · rw [← ht]
    · rw [← ht]

theorem truncate_nextId (t : Table) : t.truncate.nextId = Option.none := rfl

theorem truncate_readTable (t : Table) : t.truncate.readTable = [] := by
  rw [truncate_eq, updateTable_eq]
  show (match alistLookup
      (alistSet t.tablesState t.name (stringifyTable [])) t.name with
    | some table => table
    | Option.none => []) = []
  rw [alistLookup_set_self]
  rfl

/-- On a table that reads as empty and has no remembered counter, a plain
insert allocates ID 1. -/
theorem insert_plain_on_empty (t : Table) (d : Doc)
    (hread : t.readTable = []) (hnext : t.nextId = Option.none) :
    (t.insert (InsDoc.plain d)).1 = Except.ok 1 := by
  have hg : t.getNextId = (1, { t with nextId := some 2 }) := by
    unfold Table.getNextId
    rw [hnext, hread]
    rfl
  rw [insert_plain_fst, hg]
  dsimp only
  rw [updateTable_eq]
  have hr2 : ({ t with nextId := some 2 } : Table).readTable = [] := hread
  rw [hr2]
  rfl

set_option maxRecDepth 10000

/-- After a successful insert of a document with explicit ID 50, the next
plain insert recomputes the counter from the stored table (the remembered
counter was dropped) and allocates an ID strictly greater than 50. -/
theorem next_insert_gt_50 (t t1 : Table) (d d1 : Doc)
    (h : t.insert (InsDoc.withId 50 d) = (Except.ok 50, t1)) :
    ∃ i, (t1.insert (InsDoc.plain d1)).1 = Except.ok i ∧ 50 < i := by
  obtain ⟨hfree, hread, hnext, hname⟩ := insert_withId_ok t t1 50 50 d h
  set conv := convertTable t.readTable with hconv
  set tD := alistSet conv 50 d with htD
  set R := stringifyTable tD with hR
  set M := (R.map (fun p => docIdOfStr p.1)).foldl Nat.max 0 with hM
  have hmem : ((50 : Nat), d) ∈ tD :=
    mem_of_alistLookup_eq_some _ _ _ (alistLookup_set_self conv 50 d)
  have hlookR : (alistLookup R (pyStr 50)).isSome = true := by
    rw [hR]
    exact foldl_set_mem_isSome (fun (p : Nat × Doc) => pyStr p.1)
      (fun (p : Nat × Doc) => p.2) tD [] (50, d) hmem
  have hne : R ≠ [] := by
    intro he
    rw [he] at hlookR
    simp [alistLookup] at hlookR
  have h50mem : (50 : Nat) ∈ R.map (fun p => docIdOfStr p.1) := by
    have h1 : pyStr 50 ∈ R.map Prod.fst :=
      mem_fst_of_alistLookup_isSome _ _ hlookR
    rcases List.mem_map.mp h1 with ⟨p, hp, hpe⟩
    refine List.mem_map.mpr ⟨p, hp, ?_⟩
    show docIdOfStr p.1 = 50
    rw [show p.1 = pyStr 50 from hpe, docIdOfStr_pyStr]
  have h50le : 50 ≤ M := mem_le_foldl_max _ 50 h50mem 0
  have hisEmpty : R.isEmpty = false := by
    cases hc : R
    · exact absurd hc hne
    · rfl
  have hgn : t1.getNextId = (M + 1, { t1 with nextId := some (M + 2) }) := by
    unfold Table.getNextId
    rw [hnext, hread]
    simp only [hisEmpty, Bool.false_eq_true, if_false]
  have hg : alistLookup (convertTable R) (M + 1) = Option.none := by
    cases hc : alistLookup (convertTable R) (M + 1) with
    | none => rfl
    | some w =>
      have hs : (alistLookup (convertTable R) (M + 1)).isSome = true := by
        rw [hc]
        rfl
      rcases foldl_set_isSome_inv (fun (p : String × Doc) => docIdOfStr p.1)
        (fun (p : String × Doc) => p.2) R [] (M + 1) hs with h1 | h1
      · simp [alistLookup] at h1
      · have := mem_le_foldl_max _ _ h1 0
        rw [← hM] at this
        omega
  refine ⟨M + 1, ?_, by omega⟩
  rw [insert_plain_fst, hgn]
  dsimp only
  rw [updateTable_eq]
  have hr2 : ({ t1 with nextId := some (M + 2) } : Table).readTable = R :=
    hread
  rw [hr2]
  simp [insertUpdater, hg, Except.map]

/-- C4: document-ID allocation is monotonic: successive plain inserts on a
fresh table return 1, 2, 3 in sequence; after truncate() the next plain
insert returns 1 again; and after a successful insert of a document with
explicit ID 50, the next plain insert returns an ID strictly greater than
50. -/
theorem c4_id_monotonic :
    (∀ d1 d2 d3 : Doc,
      ((freshTable "tbl").insert (InsDoc.plain d1)).1 = Except.ok 1 ∧
      (((freshTable "tbl").insert (InsDoc.plain d1)).2.insert
        (InsDoc.plain d2)).1 = Except.ok 2 ∧
      ((((freshTable "tbl").insert (InsDoc.plain d1)).2.insert
        (InsDoc.plain d2)).2.insert (InsDoc.plain d3)).1 = Except.ok 3) ∧
    (∀ (t : Table) (d : Doc),
      (t.truncate.insert (InsDoc.plain d)).1 = Except.ok 1) ∧
    (∀ (t t1 : Table) (d d1 : Doc),
      t.insert (InsDoc.withId 50 d) = (Except.ok 50, t1) →
      ∃ i, (t1.insert (InsDoc.plain d1)).1 = Except.ok i ∧ 50 < i) := by
  refine ⟨fun d1 d2 d3 => ⟨rfl, rfl, rfl⟩, ?_, ?_⟩
  · intro t d
    exact insert_plain_on_empty t.truncate d (truncate_readTable t)
      (truncate_nextId t)
  · intro t t1 d d1 h
    exact next_insert_gt_50 t t1 d d1 h

/-- C4 witness: the concrete scenario on a fresh table, including the
explicit-ID part (insert ID 50, then a plain insert returns 51). -/
theorem c4_witness :
    (((freshTable "w").insert (InsDoc.plain [("a", PyVal.int 1)])).1
      = Except.ok 1) ∧
    ((freshTable "w").truncate.insert
      (InsDoc.plain [("a", PyVal.int 1)])).1 = Except.ok 1 ∧
    (∃ i, ((((freshTable "w").insert
        (InsDoc.withId 50 [("c", PyVal.int 3)])).2).insert
          (InsDoc.plain [("d", PyVal.int 4)])).1 = Except.ok i ∧ 50 < i) :=
  ⟨(c4_id_monotonic.1 [("a", PyVal.int 1)] [] []).1,
   c4_id_monotonic.2.1 (freshTable "w") [("a", PyVal.int 1)],
   c4_id_monotonic.2.2 (freshTable "w")
     (((freshTable "w").insert (InsDoc.withId 50 [("c", PyVal.int 3)])).2)
     [("c", PyVal.int 3)] [("d", PyVal.int 4)] (by rfl)⟩

/-- C9: insert/get round trip: for every plain document, getting back the
ID that insert returned yields a document with exactly the inserted
content, despite IDs being stored as strings at the storage boundary
(str on write, direct string lookup on get). -/
theorem c9_roundtrip (t t1 : Table) (d : Doc) (i : Nat)
    (h : t.insert (InsDoc.plain d) = (Except.ok i, t1)) :
    t1.getById i = some (Document.mk d i) := by
  obtain ⟨hfree, hread, hname⟩ := insert_plain_ok t t1 i d h
  set conv := convertTable t.readTable with hconv
  have hnodup : (conv.map Prod.fst).Nodup := by
    rw [hconv]
    exact foldl_set_keys_nodup (fun (p : String × Doc) => docIdOfStr p.1)
      (fun (p : String × Doc) => p.2) t.readTable [] List.nodup_nil
  have hnotmem : i ∉ conv.map Prod.fst :=
    not_mem_of_alistLookup_eq_none _ _ hfree
  have htD : alistSet conv i d = conv ++ [(i, d)] :=
    alistSet_of_lookup_none _ _ _ hfree
  have hkeysnd : ((conv ++ [(i, d)]).map
      (fun (p : Nat × Doc) => pyStr p.1)).Nodup := by
    have hmm : (conv ++ [(i, d)]).map (fun (p : Nat × Doc) => pyStr p.1)
        = ((conv ++ [(i, d)]).map Prod.fst).map pyStr := by
      rw [List.map_map]
      rfl
    rw [hmm]
    refine List.Nodup.map (fun a b hab => pyStr_injective a b hab) ?_
    rw [List.map_append]
    simp [List.nodup_append, hnodup, hnotmem]
  have hstr : stringifyTable (conv ++ [(i, d)])
      = (conv ++ [(i, d)]).map (fun p => (pyStr p.1, p.2)) := by
    have hfe := foldl_set_eq_append (fun (p : Nat × Doc) => pyStr p.1)
      (fun (p : Nat × Doc) => p.2) (conv ++ [(i, d)]) [] hkeysnd
      (fun b hb => rfl)
    rw [List.nil_append] at hfe
    exact hfe
  have hlook1 : alistLookup (conv.map (fun p => (pyStr p.1, p.2))) (pyStr i)
      = Option.none := by
    apply alistLookup_eq_none_of_not_mem
    intro hmem
    rw [List.map_map] at hmem
    rcases List.mem_map.mp hmem with ⟨p, hp, hpe⟩
    refine hnotmem ?_
    have hpi : p.1 = i := pyStr_injective _ _ hpe
    rw [← hpi]
    exact List.mem_map_of_mem Prod.fst hp
  unfold Table.getById
  rw [hread, htD, hstr, List.map_append, alistLookup_append, hlook1]
  simp [alistLookup]

/-- C9 witness: a concrete insert/get round trip on a fresh table. -/
theorem c9_witness :
    (((freshTable "w9").insert (InsDoc.plain [("a", PyVal.int 7)])).2).getById 1
      = some (Document.mk [("a", PyVal.int 7)] 1) :=
  c9_roundtrip (freshTable "w9")
    (((freshTable "w9").insert (InsDoc.plain [("a", PyVal.int 7)])).2)
    [("a", PyVal.int 7)] 1 (by rfl)

/-- C10: inserting a document whose explicit ID already exists raises
ValueError and leaves the stored state (and the query cache) untouched:
the duplicate check runs inside the updater before anything is added, so
the storage write and the cache clear are never reached.  Only the
remembered next-ID counter has been reset by then. -/
theorem c10_insert_atomic (t : Table) (i : Nat) (d : Doc)
    (hdup : (alistLookup (convertTable t.readTable) i).isSome = true) :
    (t.insert (InsDoc.withId i d)).1 = Except.error PyExc.valueError ∧
    (t.insert (InsDoc.withId i d)).2.storage = t.storage ∧
    (t.insert (InsDoc.withId i d)).2.queryCache = t.queryCache := by
  have hra : ({ t with nextId := Option.none } : Table).readTable
      = t.readTable := rfl
  have hfst := insert_withId_fst t i d
  have hsnd := insert_withId_snd t i d
  rw [updateTable_eq] at hfst hsnd
  rw [hra] at hfst hsnd
  rw [show insertUpdater i d (convertTable t.readTable)
        ({ t with nextId := Option.none } : Table)
      = (Except.error PyExc.valueError,
          ({ t with nextId := Option.none } : Table)) from by
    simp [insertUpdater, hdup]] at hfst hsnd
  refine ⟨?_, ?_, ?_⟩
  · rw [hfst]
    rfl
  · rw [hsnd]
  · rw [hsnd]

/-- C10 witness: a concrete duplicate-ID insert fails and leaves storage
and cache as they were. -/
theorem c10_witness :
    ((Table.mk (some [("w", [("3", [("a", PyVal.int 1)])])]) "w"
        (LRUCache.mk (some 10) [(some HVal.noopH, some [])]) (some 9)).insert
      (InsDoc.withId 3 [("b", PyVal.int 2)])).1
      = Except.error PyExc.valueError ∧
    ((Table.mk (some [("w", [("3", [("a", PyVal.int 1)])])]) "w"
        (LRUCache.mk (some 10) [(some HVal.noopH, some [])]) (some 9)).insert
      (InsDoc.withId 3 [("b", PyVal.int 2)])).2.storage
      = some [("w", [("3", [("a", PyVal.int 1)])])] ∧
    ((Table.mk (some [("w", [("3", [("a", PyVal.int 1)])])]) "w"
        (LRUCache.mk (some 10) [(some HVal.noopH, some [])]) (some 9)).insert
      (InsDoc.withId 3 [("b", PyVal.int 2)])).2.queryCache
      = LRUCache.mk (some 10) [(some HVal.noopH, some [])] :=
  c10_insert_atomic
    (Table.mk (some [("w", [("3", [("a", PyVal.int 1)])])]) "w"
      (LRUCache.mk (some 10) [(some HVal.noopH, some [])]) (some 9))
    3 [("b", PyVal.int 2)] (by rfl)

/-- C5 counterexample: update(fields, doc_ids=[1, 2]) on a table holding
only document 1 raises KeyError (table[doc_id] inside perform_update hits
the missing ID 2) instead of skipping it, and the whole table handle comes
back unchanged: document 1 keeps its old content, the storage is not
written and the query cache is not cleared. -/
theorem c5_counterexample :
    ((Table.mk (some [("t5", [("1", [("a", PyVal.int 1)])])]) "t5"
        (LRUCache.mk (some 10) [(some HVal.noopH, some [])])
        Option.none).updateByIds
      (UpdFields.mapping [("x", PyVal.int 1)]) [1, 2]).1
      = Except.error PyExc.keyError ∧
    ((Table.mk (some [("t5", [("1", [("a", PyVal.int 1)])])]) "t5"
        (LRUCache.mk (some 10) [(some HVal.noopH, some [])])
        Option.none).updateByIds
      (UpdFields.mapping [("x", PyVal.int 1)]) [1, 2]).2
      = Table.mk (some [("t5", [("1", [("a", PyVal.int 1)])])]) "t5"
          (LRUCache.mk (some 10) [(some HVal.noopH, some [])])
          Option.none := by
  exact ⟨rfl, rfl⟩

/-- The update loop succeeds when every requested ID is present: each step
rewrites one document in place and presence is preserved. -/
theorem updateByIdsGo_ok (fields : UpdFields) :
    ∀ (docIds : List Nat) (table : NatTable),
    (∀ i ∈ docIds, (alistLookup table i).isSome = true) →
    ∃ tb1, updateByIdsGo fields docIds table = Except.ok tb1 := by
  intro docIds
  induction docIds with
  | nil => exact fun table _ => ⟨table, rfl⟩
  | cons i rest ih =>
    intro table hp
    have hi := hp i (List.mem_cons_self _ _)
    cases hl : alistLookup table i with
    | none =>
      rw [hl] at hi
      simp at hi
    | some doc =>
      cases fields with
      | mapping fs =>
        have hstep : updateByIdsGo (UpdFields.mapping fs) (i :: rest) table
            = updateByIdsGo (UpdFields.mapping fs) rest
              (alistSet table i (dictUpdate doc fs)) := by
          simp [updateByIdsGo, performUpdate, hl]
        rw [hstep]
        exact ih _ (fun j hj =>
          alistLookup_set_isSome_mono table i (dictUpdate doc fs) j
            (hp j (List.mem_cons_of_mem _ hj)))
      | callable fn =>
        have hstep : updateByIdsGo (UpdFields.callable fn) (i :: rest) table
            = updateByIdsGo (UpdFields.callable fn) rest
              (alistSet table i (fn doc)) := by
          simp [updateByIdsGo, performUpdate, hl]
        rw [hstep]
        exact ih _ (fun j hj =>
          alistLookup_set_isSome_mono table i (fn doc) j
            (hp j (List.mem_cons_of_mem _ hj)))

/-- perform_update at a present ID: both variants rewrite the looked-up
document in place through applyFields. -/
theorem performUpdate_eq (fields : UpdFields) (table : NatTable) (i : Nat)
    (doc : Doc) (hl : alistLookup table i = some doc) :
    performUpdate fields table i
      = Except.ok (alistSet table i (applyFields fields doc)) := by
  cases fields with
  | mapping fs => simp [performUpdate, applyFields, hl]
  | callable fn => simp [performUpdate, applyFields, hl]

theorem updateByIdsGo_cons (fields : UpdFields) (i : Nat) (rest : List Nat)
    (table : NatTable) (doc : Doc) (hl : alistLookup table i = some doc) :
    updateByIdsGo fields (i :: rest) table
      = updateByIdsGo fields rest (alistSet table i (applyFields fields doc)) := by
  show (match performUpdate fields table i with
    | Except.ok table1 => updateByIdsGo fields rest table1
    | Except.error e => Except.error e) = _
  rw [performUpdate_eq fields table i doc hl]

/-- The update loop raises KeyError as soon as any requested ID is absent:
updating a present ID earlier in the list cannot make a missing one
appear. -/
theorem updateByIdsGo_err (fields : UpdFields) :
    ∀ (docIds : List Nat) (table : NatTable),
    (∃ i ∈ docIds, alistLookup table i = Option.none) →
    updateByIdsGo fields docIds table = Except.error PyExc.keyError := by
  intro docIds
  induction docIds with
  | nil =>
    intro table h
    obtain ⟨i, hi, _⟩ := h
    cases hi
  | cons i rest ih =>
    intro table h
    obtain ⟨j, hj, hln⟩ := h
    cases hl : alistLookup table i with
    | none => simp [updateByIdsGo, performUpdate, hl]
    | some doc =>
      rw [updateByIdsGo_cons fields i rest table doc hl]
      have hji : j ≠ i := by
        intro he
        rw [he, hl] at hln
        cases hln
      have hjrest : j ∈ rest := by
        rcases List.mem_cons.mp hj with h1 | h1
        · exact absurd h1 hji
        · exact h1
      refine ih _ ⟨j, hjrest, ?_⟩
      rw [alistLookup_set_ne table i (applyFields fields doc) j
        (beq_false_of_ne (fun he => hji he.symm))]
      exact hln

/-- The update loop never touches a document outside the requested ID
list. -/
theorem updateByIdsGo_frame (fields : UpdFields) :
    ∀ (docIds : List Nat) (table tb1 : NatTable),
    updateByIdsGo fields docIds table = Except.ok tb1 →
    ∀ j, j ∉ docIds → alistLookup tb1 j = alistLookup table j := by
  intro docIds
  induction docIds with
  | nil =>
    intro table tb1 h j _
    have h3 : (Except.ok table : Except PyExc NatTable) = Except.ok tb1 := h
    injection h3 with h4
    rw [← h4]
  | cons i rest ih =>
    intro table tb1 h j hj
    have hji : j ≠ i := fun he => hj (by rw [he]; exact List.mem_cons_self i rest)
    have hjrest : j ∉ rest := fun hr => hj (List.mem_cons_of_mem i hr)
    cases hl : alistLookup table i with
    | none => simp [updateByIdsGo, performUpdate, hl] at h
    | some doc =>
      rw [updateByIdsGo_cons fields i rest table doc hl] at h
      rw [ih _ _ h j hjrest]
      exact alistLookup_set_ne table i (applyFields fields doc) j
        (beq_false_of_ne (fun he => hji he.symm))

/-- The update loop rewrites documents in place, so the set of stored IDs
(and their order) is unchanged. -/
theorem updateByIdsGo_keys (fields : UpdFields) :
    ∀ (docIds : List Nat) (table tb1 : NatTable),
    updateByIdsGo fields docIds table = Except.ok tb1 →
    tb1.map Prod.fst = table.map Prod.fst := by
  intro docIds
  induction docIds with
  | nil =>
    intro table tb1 h
    have h3 : (Except.ok table : Except PyExc NatTable) = Except.ok tb1 := h
    injection h3 with h4
    rw [← h4]
  | cons i rest ih =>
    intro table tb1 h
    cases hl : alistLookup table i with
    | none => simp [updateByIdsGo, performUpdate, hl] at h
    | some doc =>
      rw [updateByIdsGo_cons fields i rest table doc hl] at h
      rw [ih _ _ h]
      exact alistSet_map_fst_of_lookup_some table i (applyFields fields doc)
        doc hl

/-- On a duplicate-free ID list, a successful update loop leaves each
requested ID holding exactly the fields-applied version of its old
document. -/
theorem updateByIdsGo_lookup (fields : UpdFields) :
    ∀ (docIds : List Nat) (table tb1 : NatTable),
    updateByIdsGo fields docIds table = Except.ok tb1 →
    docIds.Nodup →
    ∀ i ∈ docIds,
      alistLookup tb1 i = (alistLookup table i).map (applyFields fields) := by
  intro docIds
  induction docIds with
  | nil =>
    intro table tb1 _ _ i hi
    cases hi
  | cons k rest ih =>
    intro table tb1 h hnd i hi
    have hnd2 := List.nodup_cons.mp hnd
    cases hl : alistLookup table k with
    | none => simp [updateByIdsGo, performUpdate, hl] at h
    | some doc =>
      rw [updateByIdsGo_cons fields k rest table doc hl] at h
      rcases List.mem_cons.mp hi with he | hirest
      · subst he
        have hfr := updateByIdsGo_frame fields rest _ tb1 h i hnd2.1
        rw [hfr, alistLookup_set_self, hl]
        rfl
      · have hik : (k == i) = false :=
          beq_false_of_ne (fun he2 => hnd2.1 (by rw [he2]; exact hirest))
        rw [ih _ tb1 h hnd2.2 i hirest,
          alistLookup_set_ne table k (applyFields fields doc) i hik]

/-- Writing a table whose ID keys are duplicate-free back to storage is
plain per-entry stringification of the keys. -/
theorem stringifyTable_eq_map (tb : NatTable)
    (hnd : (tb.map Prod.fst).Nodup) :
    stringifyTable tb = tb.map (fun p => (pyStr p.1, p.2)) := by
  have hkeysnd : (tb.map (fun (p : Nat × Doc) => pyStr p.1)).Nodup := by
    have hmm : tb.map (fun (p : Nat × Doc) => pyStr p.1)
        = (tb.map Prod.fst).map pyStr := by
      rw [List.map_map]
      rfl
    rw [hmm]
    exact List.Nodup.map (fun a b hab => pyStr_injective a b hab) hnd
  have hfe := foldl_set_eq_append (fun (p : Nat × Doc) => pyStr p.1)
    (fun (p : Nat × Doc) => p.2) tb [] hkeysnd (fun b hb => rfl)
  rw [List.nil_append] at hfe
  exact hfe

/-- Looking up str(doc_id) in the stringified table is looking up doc_id
in the ID-keyed table: str is injective on document IDs. -/
theorem alistLookup_map_pyStr (tb : NatTable) (i : Nat) :
    alistLookup (tb.map (fun p => (pyStr p.1, p.2))) (pyStr i)
      = alistLookup tb i := by
  induction tb with
  | nil => rfl
  | cons p rest ih =>
    obtain ⟨k, v⟩ := p
    by_cases hk : k = i
    · subst hk
      simp [alistLookup]
    · have hs : (pyStr k == pyStr i) = false :=
        beq_false_of_ne (fun he => hk (pyStr_injective k i he))
      have hki : (k == i) = false := beq_false_of_ne hk
      simp only [List.map_cons, alistLookup, hs, hki, Bool.false_eq_true,
        if_false]
      exact ih

/-- C5 (amended): when every ID in the doc_ids list is present, update
merges the fields into exactly those documents — afterwards each requested
ID stores the fields-applied version of its old document and every other
ID keeps its old document — returning the requested ID list and clearing
the query cache as part of the write.  A missing ID, however, is NOT
skipped: the whole call raises KeyError and nothing at all is written, the
table handle (storage and query cache included) coming back exactly as it
was. -/
theorem c5_update_by_ids_amended (t : Table) (fields : UpdFields)
    (docIds : List Nat) :
    ((∀ i ∈ docIds,
        (alistLookup (convertTable t.readTable) i).isSome = true) →
      (t.updateByIds fields docIds).1 = Except.ok docIds ∧
      (t.updateByIds fields docIds).2.queryCache.cache = [] ∧
      (docIds.Nodup →
        ∀ i ∈ docIds,
          alistLookup ((t.updateByIds fields docIds).2.readTable) (pyStr i)
            = (alistLookup (convertTable t.readTable) i).map
                (applyFields fields)) ∧
      (∀ j, j ∉ docIds →
        alistLookup ((t.updateByIds fields docIds).2.readTable) (pyStr j)
          = alistLookup (convertTable t.readTable) j)) ∧
    ((∃ i ∈ docIds,
        alistLookup (convertTable t.readTable) i = Option.none) →
      (t.updateByIds fields docIds).1 = Except.error PyExc.keyError ∧
      (t.updateByIds fields docIds).2 = t) := by
  constructor
  · intro hp
    obtain ⟨tb1, htb⟩ := updateByIdsGo_ok fields docIds
      (convertTable t.readTable) hp
    have hfst := updateByIds_fst t fields docIds
    have hsnd := updateByIds_snd t fields docIds
    rw [updateTable_eq] at hfst hsnd
    rw [htb] at hfst hsnd
    have h1 : (t.updateByIds fields docIds).1 = Except.ok docIds := by
      rw [hfst]
      rfl
    have h1b := h1
    rw [updateByIds_fst] at h1b
    obtain ⟨x2, hx2⟩ := except_map_ok _ _ _ h1b
    have hcache : (t.updateByIds fields docIds).2.queryCache.cache = [] := by
      rw [updateByIds_snd]
      exact updateTable_snd_cache _ _ x2 hx2
    have hread : (t.updateByIds fields docIds).2.readTable
        = stringifyTable tb1 := by
      rw [hsnd]
      show (match alistLookup
          (alistSet t.tablesState t.name (stringifyTable tb1)) t.name with
        | some table => table
        | Option.none => []) = stringifyTable tb1
      rw [alistLookup_set_self]
    have hkeysnodup : ((convertTable t.readTable).map Prod.fst).Nodup :=
      foldl_set_keys_nodup (fun (p : String × Doc) => docIdOfStr p.1)
        (fun (p : String × Doc) => p.2) t.readTable [] List.nodup_nil
    have htb1nodup : (tb1.map Prod.fst).Nodup := by
      rw [updateByIdsGo_keys fields docIds (convertTable t.readTable) tb1 htb]
      exact hkeysnodup
    have hstr : stringifyTable tb1 = tb1.map (fun p => (pyStr p.1, p.2)) :=
      stringifyTable_eq_map tb1 htb1nodup
    refine ⟨h1, hcache, ?_, ?_⟩
    · intro hnd i hi
      rw [hread, hstr, alistLookup_map_pyStr]
      exact updateByIdsGo_lookup fields docIds (convertTable t.readTable)
        tb1 htb hnd i hi
    · intro j hj
      rw [hread, hstr, alistLookup_map_pyStr]
      exact updateByIdsGo_frame fields docIds (convertTable t.readTable)
        tb1 htb j hj
  · intro hmiss
    have hfail : updateByIdsGo fields docIds (convertTable t.readTable)
        = Except.error PyExc.keyError :=
      updateByIdsGo_err fields docIds (convertTable t.readTable) hmiss
    have hfst := updateByIds_fst t fields docIds
    have hsnd := updateByIds_snd t fields docIds
    rw [updateTable_eq] at hfst hsnd
    rw [hfail] at hfst hsnd
    constructor
    · rw [hfst]
      rfl
    · rw [hsnd]

/-- C5 witness: updating two present IDs returns both, clears the cache,
and stores the merged documents (ID 1 now holds its old document with the
new field merged in, ID 7 — never requested — reads back unchanged); a
missing requested ID makes the concrete call raise KeyError and return the
table handle untouched. -/
theorem c5_witness :
    ((Table.mk (some [("w", [("1", [("a", PyVal.int 1)]), ("2", [])])]) "w"
        (LRUCache.mk (some 10) []) Option.none).updateByIds
      (UpdFields.mapping [("x", PyVal.int 5)]) [2, 1]).1
      = Except.ok [2, 1] ∧
    ((Table.mk (some [("w", [("1", [("a", PyVal.int 1)]), ("2", [])])]) "w"
        (LRUCache.mk (some 10) []) Option.none).updateByIds
      (UpdFields.mapping [("x", PyVal.int 5)]) [2, 1]).2.queryCache.cache
      = [] ∧
    alistLookup (((Table.mk
        (some [("w", [("1", [("a", PyVal.int 1)]), ("2", [])])]) "w"
        (LRUCache.mk (some 10) []) Option.none).updateByIds
      (UpdFields.mapping [("x", PyVal.int 5)]) [2, 1]).2.readTable) (pyStr 1)
      = (alistLookup (convertTable (Table.mk
          (some [("w", [("1", [("a", PyVal.int 1)]), ("2", [])])]) "w"
          (LRUCache.mk (some 10) []) Option.none).readTable) 1).map
          (applyFields (UpdFields.mapping [("x", PyVal.int 5)])) ∧
    alistLookup (((Table.mk
        (some [("w", [("1", [("a", PyVal.int 1)]), ("2", [])])]) "w"
        (LRUCache.mk (some 10) []) Option.none).updateByIds
      (UpdFields.mapping [("x", PyVal.int 5)]) [2, 1]).2.readTable) (pyStr 7)
      = alistLookup (convertTable (Table.mk
          (some [("w", [("1", [("a", PyVal.int 1)]), ("2", [])])]) "w"
          (LRUCache.mk (some 10) []) Option.none).readTable) 7 ∧
    ((freshTable "w5f").updateByIds
      (UpdFields.mapping [("x", PyVal.int 5)]) [1]).1
      = Except.error PyExc.keyError ∧
    ((freshTable "w5f").updateByIds
      (UpdFields.mapping [("x", PyVal.int 5)]) [1]).2
      = freshTable "w5f" := by
  have hA := (c5_update_by_ids_amended
    (Table.mk (some [("w", [("1", [("a", PyVal.int 1)]), ("2", [])])]) "w"
      (LRUCache.mk (some 10) []) Option.none)
    (UpdFields.mapping [("x", PyVal.int 5)]) [2, 1]).1 (by decide)
  have hB := (c5_update_by_ids_amended (freshTable "w5f")
    (UpdFields.mapping [("x", PyVal.int 5)]) [1]).2
    ⟨1, by decide, by rfl⟩
  exact ⟨hA.1, hA.2.1, hA.2.2.1 (by decide) 1 (by decide),
    hA.2.2.2 7 (by decide), hB.1, hB.2⟩

